import Mathlib

/-!
# Verification of the goodreader Catalog Record Resolver

A shallow embedding, in Lean 4, of the core of `goodreader.py`: the URL
canonicalizer (`_canon`), the crawl frontier (`collect_record_links`), the
record classifier (`_is_eresource` / `_is_nonbook`), the fetch layer
(`_download`), the title/author matcher (`_looks_like_same_book` with its
phonetic surname folding `_canon_name`), the search dispatcher (`search`),
and the tiered holdings resolver (`holdings`).

Pure string functions are translated directly.  The network is modelled as a
finite association list from URL to an abstract `Page` carrying exactly the
features the Python code extracts from a fetched body with BeautifulSoup
(raw html text, presence of a `tr.bibItemsEntry` row, the harvested anchor
hrefs and frame sources, and the display title/author fields).  Stateful
pieces (the retry loop of `_download`, the memo cache of `_is_eresource`)
are modelled with explicit state passing.
-/

namespace Goodreader

/-! ## Basic character and list-of-character helpers -/

/-- Python `str.isspace`-style whitespace test, restricted to the whitespace
characters relevant here (regex `\s` over ASCII). -/
def isWs (c : Char) : Bool :=
  c = ' ' || c = '\t' || c = '\n' || c = '\r' || c = '\x0b' || c = '\x0c'

/-- ASCII lower-casing of a single character (Python `str.lower` on ASCII). -/
def lowerChar (c : Char) : Char :=
  if 'A' ≤ c ∧ c ≤ 'Z' then Char.ofNat (c.toNat + 32) else c

def lowerL (l : List Char) : List Char := l.map lowerChar

/-- Python `str.lower` (ASCII range; non-ASCII characters that matter here
are handled by the explicit tables below). -/
def toLowerStr (s : String) : String := String.mk (lowerL s.data)

def isDigitCh (c : Char) : Bool := '0' ≤ c ∧ c ≤ '9'

def isAsciiAlphaCh (c : Char) : Bool :=
  ('a' ≤ c ∧ c ≤ 'z') || ('A' ≤ c ∧ c ≤ 'Z')

/-- Regex `\w` (word character) over ASCII: letters, digits, underscore. -/
def isWordCh (c : Char) : Bool := isAsciiAlphaCh c || isDigitCh c || c = '_'

/-- Does `pat` occur at the head of `l`? (Python `str.startswith`.) -/
def startsW : List Char → List Char → Bool
  | [], _ => true
  | _ :: _, [] => false
  | p :: ps, c :: cs => p = c && startsW ps cs

/-- Does `pat` occur as a contiguous substring of `l`? (Python `in`.) -/
def hasSub (pat : List Char) : List Char → Bool
  | [] => startsW pat []
  | c :: cs => startsW pat (c :: cs) || hasSub pat cs

/-- String-level wrapper for `hasSub`: Python `pat in s`. -/
def hasSubStr (pat s : String) : Bool := hasSub pat.data s.data

/-- Strip leading and trailing whitespace (Python `str.strip`). -/
def stripL (l : List Char) : List Char :=
  ((l.dropWhile isWs).reverse.dropWhile isWs).reverse

/-- Split `l` at the first occurrence of `c`: `some (before, after)` when `c`
occurs, `none` otherwise.  (Python `str.split(c, 1)` / `str.find`.) -/
def splitOnce (c : Char) : List Char → Option (List Char × List Char)
  | [] => none
  | x :: xs =>
    if x = c then some ([], xs)
    else match splitOnce c xs with
      | some (a, b) => some (x :: a, b)
      | none => none

/-! ## `_ascii_fold` — NFKD normalisation, ASCII projection, lower-casing

`unicodedata.normalize("NFKD", s).encode("ascii", "ignore").decode()`
decomposes accented letters and drops the combining marks (and drops
characters with no ASCII decomposition).  We tabulate that projection for
the non-ASCII letters exercised by this catalog (Estonian / Baltic / Slavic
transliterations and common Western European accents); other non-ASCII
characters are dropped, as `encode("ascii", "ignore")` does for
non-decomposable characters. -/

def asciiDropChar (c : Char) : List Char :=
  if c.toNat < 128 then [c] else
  match c with
  | 'š' => ['s'] | 'Š' => ['S'] | 'ž' => ['z'] | 'Ž' => ['Z']
  | 'č' => ['c'] | 'Č' => ['C'] | 'ö' => ['o'] | 'Ö' => ['O']
  | 'õ' => ['o'] | 'Õ' => ['O'] | 'ä' => ['a'] | 'Ä' => ['A']
  | 'ü' => ['u'] | 'Ü' => ['U'] | 'é' => ['e'] | 'É' => ['E']
  | 'è' => ['e'] | 'È' => ['E'] | 'ê' => ['e'] | 'á' => ['a']
  | 'à' => ['a'] | 'â' => ['a'] | 'å' => ['a'] | 'Å' => ['A']
  | 'ç' => ['c'] | 'Ç' => ['C'] | 'ñ' => ['n'] | 'í' => ['i']
  | 'ó' => ['o'] | 'ú' => ['u'] | 'ý' => ['y'] | 'ė' => ['e']
  | 'ī' => ['i'] | 'ū' => ['u'] | 'ā' => ['a'] | 'ē' => ['e']
  | _ => []

/-- `encode("ascii","ignore").decode()` over a char list (no lower-casing). -/
def asciiDropL (l : List Char) : List Char := l.flatMap asciiDropChar

/-- `_ascii_fold(s)`: NFKD → ASCII-ignore → lowercase. -/
def asciiFold (s : String) : String :=
  String.mk (lowerL (asciiDropL s.data))

/-! ## `_tokenise` and `strip_parens` -/

/-- Maximal runs of `[a-z0-9]` — the effect of
`re.compile(r"[^a-z0-9]+").split` followed by dropping empty pieces,
on an already folded (lowercase ASCII) string. -/
def tokenRuns : List Char → List (List Char)
  | [] => []
  | c :: cs =>
    if isDigitCh c || ('a' ≤ c ∧ c ≤ 'z') then
      match tokenRuns cs with
      | [] => [[c]]
      | t :: ts =>
        -- glue onto the following run only if `cs` starts inside a run
        match cs with
        | [] => [[c]]
        | d :: _ =>
          if isDigitCh d || ('a' ≤ d ∧ d ≤ 'z') then (c :: t) :: ts
          else [c] :: (t :: ts)
    else tokenRuns cs

/-- The tokens of `s` as a list, in order of first appearance. -/
def tokenList (s : String) : List String :=
  (tokenRuns (asciiFold s).data).map String.mk

/-- `_tokenise(s)`: the set of lowercase alphanumeric tokens of the
ASCII-folded string. -/
def _tokenise (s : String) : Finset String := (tokenList s).toFinset

/-- Inside the suffix starting at a candidate match position: after skipping
leading whitespace we need `(`, then (per lazy `.*?` over `.` = any char but
newline) a later `)` whose tail is all whitespace, reached without crossing a
newline. -/
def parenCloseToEnd : List Char → Bool
  | [] => false
  | ')' :: t => t.all isWs || parenCloseToEnd t
  | '\n' :: _ => false
  | _ :: t => parenCloseToEnd t

/-- Does `re.compile(r"\s*\(.*?\)\s*$")` match starting exactly here? -/
def parenTailAt (l : List Char) : Bool :=
  match l.dropWhile isWs with
  | '(' :: rest => parenCloseToEnd rest
  | _ => false

/-- One pass of `re.sub(r"\s*\(.*?\)\s*$", "", t)`: the first position
(scanning left to right) where the pattern matches swallows everything to
the end of the string. -/
def parenSub : List Char → List Char
  | [] => []
  | c :: cs => if parenTailAt (c :: cs) then [] else c :: parenSub cs

/-- `strip_parens(t) = re.sub(r"\s*\(.*?\)\s*$", "", t).strip()`. -/
def strip_parens (t : String) : String :=
  String.mk (stripL (parenSub t.data))

/-! ## `_surname` (the later, overriding definition at line 453) -/

/-- Python `str.split()` (split on whitespace runs, dropping empties). -/
def wsTokens : List Char → List (List Char)
  | [] => []
  | c :: cs =>
    if isWs c then wsTokens cs
    else
      match wsTokens cs with
      | [] => [[c]]
      | t :: ts =>
        match cs with
        | [] => [[c]]
        | d :: _ => if isWs d then [c] :: (t :: ts) else (c :: t) :: ts

/-- `_surname(a)`: for a `"Last, First"` author take the first
whitespace-token of the ASCII-folded part before the comma, otherwise the
last whitespace-token of the folded string.  (Python indexes `[0]` and
`[-1]`; on an all-whitespace pre-comma part `[0]` would raise — we return
`""` there, a case outside every claim.) -/
def _surname (a : String) : String :=
  match splitOnce ',' a.data with
  | some (pre, _) =>
    String.mk ((wsTokens (asciiFold (String.mk pre)).data).headD [])
  | none =>
    String.mk ((wsTokens (asciiFold a).data).getLastD [])

/-! ## URL machinery: `urllib.parse.unquote / urlsplit / urlunsplit`

Only the fragments of `urllib.parse` that `_canon` exercises are embedded:
splitting an absolute `http(s)` URL into scheme / netloc / path / query /
fragment, percent-decoding, and re-assembly.  Percent-decoding is modelled
byte-wise (each `%XX` becomes the character with code `XX`); Python
additionally UTF-8-decodes runs of bytes ≥ 0x80, which no claim exercises. -/

def hexVal (c : Char) : Option Nat :=
  if '0' ≤ c ∧ c ≤ '9' then some (c.toNat - '0'.toNat)
  else if 'a' ≤ c ∧ c ≤ 'f' then some (c.toNat - 'a'.toNat + 10)
  else if 'A' ≤ c ∧ c ≤ 'F' then some (c.toNat - 'A'.toNat + 10)
  else none

/-- `urllib.parse.unquote`, byte-level: decode `%XX` pairs, leave invalid
escapes as literal `%`. -/
def unquoteL : List Char → List Char
  | [] => []
  | [c] => [c]
  | [c, d] => if c = '%' then '%' :: unquoteL [d] else c :: unquoteL [d]
  | c :: d :: e :: rest =>
    if c = '%' then
      match hexVal d, hexVal e with
      | some ha, some hb => Char.ofNat (16 * ha + hb) :: unquoteL rest
      | _, _ => '%' :: unquoteL (d :: e :: rest)
    else c :: unquoteL (d :: e :: rest)

/-- Characters allowed in a URL scheme after the first letter. -/
def schemeChar (c : Char) : Bool :=
  isAsciiAlphaCh c || isDigitCh c || c = '+' || c = '-' || c = '.'

/-- The result of `urllib.parse.urlsplit`. -/
structure SplitUrl where
  scheme : List Char
  netloc : List Char
  path : List Char
  query : List Char
  fragment : List Char
  deriving Repr, DecidableEq

/-- Split at the first occurrence of `c`, or return `(l, [])` — matching how
Python leaves `query`/`fragment` empty when the separator is absent. -/
def splitFirst (c : Char) (l : List Char) : List Char × List Char :=
  match splitOnce c l with
  | some (a, b) => (a, b)
  | none => (l, [])

/-- `_splitnetloc`: the netloc extends to the first `/`, `?` or `#`. -/
def netlocSpan (c : Char) : Bool := ¬ (c = '/' || c = '?' || c = '#')

/-- `urllib.parse.urlsplit` (with `allow_fragments=True`):
take the scheme before the first `:` when it starts with a letter and
contains only scheme characters; take the netloc after `//`; split off the
fragment at the first `#`, then the query at the first `?`. -/
def urlsplitL (url : List Char) : SplitUrl :=
  let schemeRest : List Char × List Char :=
    match splitOnce ':' url with
    | some (pre, post) =>
      if pre ≠ [] ∧ isAsciiAlphaCh (pre.headD ' ') ∧ pre.all schemeChar then
        (lowerL pre, post)
      else ([], url)
    | none => ([], url)
  let scheme := schemeRest.1
  let rest := schemeRest.2
  let netlocRest : List Char × List Char :=
    if startsW ['/', '/'] rest then
      ((rest.drop 2).takeWhile netlocSpan, (rest.drop 2).dropWhile netlocSpan)
    else ([], rest)
  let noFragFrag := splitFirst '#' netlocRest.2
  let pathQuery := splitFirst '?' noFragFrag.1
  ⟨scheme, netlocRest.1, pathQuery.1, pathQuery.2, noFragFrag.2⟩

def urlsplitStr (url : String) : SplitUrl := urlsplitL url.data

/-- `urllib.parse.urlunsplit` for the five components, as `_canon` calls it
(query and fragment always empty there, but kept general). -/
def urlunsplitL (scheme netloc path query fragment : List Char) : List Char :=
  let u :=
    if (netloc ≠ [] ∨ (path ≠ [] ∧ startsW ['/', '/'] path)) ∧
        ¬ startsW ['/', '/'] path then
      '/' :: '/' :: (netloc ++ path)
    else path
  let u := if scheme ≠ [] then scheme ++ ':' :: u else u
  let u := if query ≠ [] then u ++ '?' :: query else u
  if fragment ≠ [] then u ++ '#' :: fragment else u

/-! ## `_FRSCRUB` and `_canon` -/

theorem dropWhile_len_le (p : Char → Bool) (l : List Char) :
    (l.dropWhile p).length ≤ l.length := by
  induction l with
  | nil => simp [List.dropWhile]
  | cons c cs ih =>
    simp only [List.dropWhile]
    split
    · exact le_trans ih (by simp)
    · simp

/-- Scanner for `\d+(?:,\d+)*,?$` after its first digit: digits and single
group commas alternate; a comma may also end the string (the trailing
`,?`), while a doubled comma or any other character fails.  `afterComma`
records that the previous character was a group comma. -/
def sliceScan : Bool → List Char → Bool
  | _, [] => true
  | afterComma, c :: rest =>
    if isDigitCh c then sliceScan false rest
    else if c = ',' && !afterComma then sliceScan true rest
    else false

/-- Does `\d+(?:,\d+)*,?$` match this entire suffix?  (The tail part of the
first `_FRSCRUB` alternative, after its leading `&`.) -/
def sliceTail : List Char → Bool
  | [] => false
  | c :: rest => isDigitCh c && sliceScan false rest

/-- One key of the second `_FRSCRUB` alternative: `key=` then `[^&]*`
(greedy).  On success return the remainder after the matched span.
`_FRSCRUB` is compiled with `re.I`, hence the case-folded comparison. -/
def saveKeyMatch (key rest : List Char) : Option (List Char) :=
  if startsW (key ++ ['=']) (lowerL (rest.take (key.length + 1))) then
    some ((rest.drop (key.length + 1)).dropWhile (· ≠ '&'))
  else none

/-- Try the second `_FRSCRUB` alternative
`[&?](?:save|saved|clear_saves)=[^&]*` at the head of `l` (the regex
alternation tries `save` then `saved` then `clear_saves`, each requiring a
following `=`); on success return the remainder after the match. -/
def saveMatch : List Char → Option (List Char)
  | [] => none
  | c :: rest =>
    if c = '&' ∨ c = '?' then
      match saveKeyMatch "save".data rest with
      | some r => some r
      | none =>
        match saveKeyMatch "saved".data rest with
        | some r => some r
        | none => saveKeyMatch "clear_saves".data rest
    else none

theorem saveKeyMatch_length {key rest r : List Char}
    (h : saveKeyMatch key rest = some r) : r.length ≤ rest.length := by
  unfold saveKeyMatch at h
  split at h
  · cases h
    exact le_trans (dropWhile_len_le _ _) (by simp)
  · cases h

theorem saveMatch_length : ∀ {l r : List Char},
    saveMatch l = some r → r.length < l.length
  | [], r, h => by simp [saveMatch] at h
  | c :: rest, r, h => by
    simp only [saveMatch] at h
    split at h
    · have hle : r.length ≤ rest.length := by
        rcases h1 : saveKeyMatch "save".data rest with _ | r1 <;> rw [h1] at h
        · rcases h2 : saveKeyMatch "saved".data rest with _ | r2 <;> rw [h2] at h
          · exact saveKeyMatch_length h
          · cases h; exact saveKeyMatch_length h2
        · cases h; exact saveKeyMatch_length h1
      simpa using Nat.lt_succ_of_le hle
    · cases h

/-- `_FRSCRUB.sub("", tail)`: one left-to-right pass of `re.sub` with
pattern `(?:&\d+(?:,\d+)*,?$) | (?:[&?](?:save|saved|clear_saves)=[^&]*)`.
The first alternative is anchored at `$`, so a match there truncates the
string; after a match of the second alternative scanning resumes after the
matched span.  The recursion is driven by explicit fuel so that the kernel
can evaluate it; `saveMatch_length` shows every match consumes at least one
character, so fuel equal to the length of the string always suffices. -/
def frscrubF : Nat → List Char → List Char
  | 0, l => l
  | fuel + 1, l =>
    match l with
    | [] => []
    | c :: cs =>
      if c = '&' ∧ sliceTail cs then []
      else match saveMatch (c :: cs) with
        | some rest => frscrubF fuel rest
        | none => c :: frscrubF fuel cs

def frscrub (l : List Char) : List Char := frscrubF l.length l

/-- `_canon(url)`: for hit-list URLs (containing `/frameset` in the unquoted
path or query) keep `scheme://netloc` plus the scrubbed `path?query` tail;
for all other URLs drop the query entirely. -/
def _canon (url : String) : String :=
  let s := urlsplitStr url
  let path := unquoteL s.path
  let query := unquoteL s.query
  if hasSub "/frameset".data path || hasSub "/frameset".data query then
    let tail := if query ≠ [] then path ++ '?' :: query else path
    String.mk (urlunsplitL s.scheme s.netloc (frscrub tail) [] [])
  else
    String.mk (urlunsplitL s.scheme s.netloc path [] [])

/-! ## Double Metaphone (primary code)

`_canon_name` ends with `doublemetaphone(s)[0]` from the external
`metaphone` package — a Python port of Lawrence Philips' Double Metaphone
that returns the full (untruncated) primary/secondary codes; the source's
own comment gives the five-character code `KRMST` for "Karamazov".  The
algorithm never reads its own output, so only the primary code is built
here.  Inputs reaching it from `_canon_name` are always lowercase `[a-z]*`
(the `_NONAZ` filter runs first), so the rules for `Ç`/`Ñ` are omitted. -/

def upperChar (c : Char) : Char :=
  if 'a' ≤ c ∧ c ≤ 'z' then Char.ofNat (c.toNat - 32) else c

def isVowelDM (c : Char) : Bool :=
  c = 'A' || c = 'E' || c = 'I' || c = 'O' || c = 'U' || c = 'Y'

/-- Character of the word at (possibly out-of-range) index `i`; the
algorithm pads with spaces past the end and treats negative indices as
misses. -/
def dmGet (w : List Char) (i : Int) : Char :=
  if i < 0 then ' ' else (w.drop i.toNat).headD ' '

/-- `StringAt`: does `pat` occur at index `i` of the padded word? -/
def dmAt (w : List Char) (i : Int) : List Char → Bool
  | [] => true
  | c :: cs => dmGet w i = c && dmAt w (i + 1) cs

def dmAtAny (w : List Char) (i : Int) (pats : List String) : Bool :=
  pats.any fun p => dmAt w i p.data

/-- `SlavoGermanic`: the word contains `W`, `K`, `CZ` or `WITZ`. -/
def slavoGermanic (w : List Char) : Bool :=
  hasSub ['W'] w || hasSub ['K'] w || hasSub ['C', 'Z'] w

/-- One step of the Double Metaphone letter machine: at position `pos` of
the uppercased word `w` (`len` characters, last index `last`), return the
characters appended to the primary code and the advance. -/
def dmRule (w : List Char) (len last pos : Int) : List Char × Int :=
  let g := dmGet w
  let at1 := dmAt w
  let any1 := dmAtAny w
  let c := g pos
  if isVowelDM c then
    (if pos = 0 then ['A'] else [], 1)
  else if c = 'B' then
    (['P'], if g (pos + 1) = 'B' then 2 else 1)
  else if c = 'C' then
    -- various germanic
    if pos > 1 ∧ ¬ isVowelDM (g (pos - 2)) ∧ at1 (pos - 1) "ACH".data ∧
        (g (pos + 2) ≠ 'I' ∧
          (g (pos + 2) ≠ 'E' ∨ any1 (pos - 2) ["BACHER", "MACHER"])) then
      (['K'], 2)
    else if pos = 0 ∧ at1 pos "CAESAR".data then (['S'], 2)
    else if at1 pos "CHIA".data then (['K'], 2)
    else if at1 pos "CH".data then
      if pos > 0 ∧ at1 pos "CHAE".data then (['K'], 2)
      else if pos = 0 ∧
          (any1 (pos + 1) ["HARAC", "HARIS"] ∨
            any1 (pos + 1) ["HOR", "HYM", "HIA", "HEM"]) ∧
          ¬ at1 0 "CHORE".data then (['K'], 2)
      else if (any1 0 ["VAN ", "VON "] ∨ at1 0 "SCH".data) ∨
          any1 (pos - 2) ["ORCHES", "ARCHIT", "ORCHID"] ∨
          any1 (pos + 2) ["T", "S"] ∨
          ((any1 (pos - 1) ["A", "O", "U", "E"] ∨ pos = 0) ∧
            (any1 (pos + 2) ["L", "R", "N", "M", "B", "H", "F", "V", "W", " "] ∨
              pos + 2 ≥ len)) then (['K'], 2)
      else if pos > 0 then
        (if at1 0 "MC".data then (['K'], 2) else (['X'], 2))
      else (['X'], 2)
    else if at1 pos "CZ".data ∧ ¬ at1 (pos - 2) "WICZ".data then (['S'], 2)
    else if at1 (pos + 1) "CIA".data then (['X'], 3)
    else if at1 pos "CC".data ∧ ¬ (pos = 1 ∧ g 0 = 'M') then
      if any1 (pos + 2) ["I", "E", "H"] ∧ ¬ at1 (pos + 2) "HU".data then
        if (pos = 1 ∧ g (pos - 1) = 'A') ∨
            any1 (pos - 1) ["UCCEE", "UCCES"] then (['K', 'S'], 3)
        else (['X'], 3)
      else (['K'], 2)
    else if any1 pos ["CK", "CG", "CQ"] then (['K'], 2)
    else if any1 pos ["CI", "CE", "CY"] then (['S'], 2)
    else
      (['K'],
        if any1 (pos + 1) [" C", " Q", " G"] then 3
        else if any1 (pos + 1) ["C", "K", "Q"] ∧
            ¬ any1 (pos + 1) ["CE", "CI"] then 2
        else 1)
  else if c = 'D' then
    if at1 pos "DG".data then
      if any1 (pos + 2) ["I", "E", "Y"] then (['J'], 3) else (['T', 'K'], 2)
    else if any1 pos ["DT", "DD"] then (['T'], 2)
    else (['T'], 1)
  else if c = 'F' then (['F'], if g (pos + 1) = 'F' then 2 else 1)
  else if c = 'G' then
    if g (pos + 1) = 'H' then
      if pos > 0 ∧ ¬ isVowelDM (g (pos - 1)) then (['K'], 2)
      else if pos = 0 then
        (if g (pos + 2) = 'I' then (['J'], 2) else (['K'], 2))
      else if (pos > 1 ∧ any1 (pos - 2) ["B", "H", "D"]) ∨
          (pos > 2 ∧ any1 (pos - 3) ["B", "H", "D"]) ∨
          (pos > 3 ∧ any1 (pos - 4) ["B", "H"]) then ([], 2)
      else if pos > 2 ∧ g (pos - 1) = 'U' ∧
          any1 (pos - 3) ["C", "G", "L", "R", "T"] then (['F'], 2)
      else if pos > 0 ∧ g (pos - 1) ≠ 'I' then (['K'], 2)
      else ([], 2)
    else if g (pos + 1) = 'N' then
      if pos = 1 ∧ isVowelDM (g 0) ∧ ¬ slavoGermanic w then (['K', 'N'], 2)
      else if ¬ at1 (pos + 2) "EY".data ∧ g (pos + 1) ≠ 'Y' ∧
          ¬ slavoGermanic w then (['N'], 2)
      else (['K', 'N'], 2)
    else if at1 (pos + 1) "LI".data ∧ ¬ slavoGermanic w then (['K', 'L'], 2)
    else if pos = 0 ∧ (g (pos + 1) = 'Y' ∨
        any1 (pos + 1) ["ES", "EP", "EB", "EL", "EY", "IB", "IL", "IN", "IE",
          "EI", "ER"]) then (['K'], 2)
    else if (at1 (pos + 1) "ER".data ∨ g (pos + 1) = 'Y') ∧
        ¬ any1 0 ["DANGER", "RANGER", "MANGER"] ∧
        ¬ any1 (pos - 1) ["E", "I"] ∧
        ¬ any1 (pos - 1) ["RGY", "OGY"] then (['K'], 2)
    else if any1 (pos + 1) ["E", "I", "Y"] ∨
        any1 (pos - 1) ["AGGI", "OGGI"] then
      if (any1 0 ["VAN ", "VON "] ∨ at1 0 "SCH".data) ∨
          at1 (pos + 1) "ET".data then (['K'], 2)
      else if at1 (pos + 1) "IER ".data then (['J'], 2)
      else (['J'], 2)
    else (['K'], if g (pos + 1) = 'G' then 2 else 1)
  else if c = 'H' then
    if (pos = 0 ∨ isVowelDM (g (pos - 1))) ∧ isVowelDM (g (pos + 1)) then
      (['H'], 2)
    else ([], 1)
  else if c = 'J' then
    if at1 pos "JOSE".data ∨ any1 0 ["SAN "] then
      if (pos = 0 ∧ g (pos + 4) = ' ') ∨ any1 0 ["SAN "] then (['H'], 1)
      else (['J'], 1)
    else
      let adv : Int := if g (pos + 1) = 'J' then 2 else 1
      if pos = 0 then (['J'], adv)
      else if isVowelDM (g (pos - 1)) ∧ ¬ slavoGermanic w ∧
          (g (pos + 1) = 'A' ∨ g (pos + 1) = 'O') then (['J'], adv)
      else if pos = last then (['J'], adv)
      else if ¬ any1 (pos + 1) ["L", "T", "K", "S", "N", "M", "B", "Z"] ∧
          ¬ any1 (pos - 1) ["S", "K", "L"] then (['J'], adv)
      else ([], adv)
  else if c = 'K' then (['K'], if g (pos + 1) = 'K' then 2 else 1)
  else if c = 'L' then
    if g (pos + 1) = 'L' then (['L'], 2) else (['L'], 1)
  else if c = 'M' then
    (['M'],
      if (at1 (pos - 1) "UMB".data ∧
          (pos + 1 = last ∨ at1 (pos + 2) "ER".data)) ∨ g (pos + 1) = 'M' then 2
      else 1)
  else if c = 'N' then (['N'], if g (pos + 1) = 'N' then 2 else 1)
  else if c = 'P' then
    if g (pos + 1) = 'H' then (['F'], 2)
    else (['P'], if g (pos + 1) = 'P' ∨ g (pos + 1) = 'B' then 2 else 1)
  else if c = 'Q' then (['K'], if g (pos + 1) = 'Q' then 2 else 1)
  else if c = 'R' then
    let adv : Int := if g (pos + 1) = 'R' then 2 else 1
    if pos = last ∧ ¬ slavoGermanic w ∧ at1 (pos - 2) "IE".data ∧
        ¬ any1 (pos - 4) ["ME", "MA"] then ([], adv)
    else (['R'], adv)
  else if c = 'S' then
    if any1 (pos - 1) ["ISL", "YSL"] then ([], 1)
    else if pos = 0 ∧ at1 pos "SUGAR".data then (['X'], 1)
    else if at1 pos "SH".data then
      if any1 (pos + 1) ["HEIM", "HOEK", "HOLM", "HOLZ"] then (['S'], 2)
      else (['X'], 2)
    else if any1 pos ["SIO", "SIA"] ∨ at1 pos "SIAN".data then (['S'], 3)
    else if (pos = 0 ∧ any1 (pos + 1) ["M", "N", "L", "W"]) ∨
        g (pos + 1) = 'Z' then
      (['S'], if g (pos + 1) = 'Z' then 2 else 1)
    else if at1 pos "SC".data then
      if g (pos + 2) = 'H' then
        if any1 (pos + 3) ["OO", "ER", "EN", "UY", "ED", "EM"] then
          if any1 (pos + 3) ["ER", "EN"] then (['X'], 3)
          else (['S', 'K'], 3)
        else (['X'], 3)
      else if any1 (pos + 2) ["I", "E", "Y"] then (['S'], 3)
      else (['S', 'K'], 3)
    else
      let adv : Int := if g (pos + 1) = 'S' ∨ g (pos + 1) = 'Z' then 2 else 1
      if pos = last ∧ any1 (pos - 2) ["AI", "OI"] then ([], adv)
      else (['S'], adv)
  else if c = 'T' then
    if at1 pos "TION".data then (['X'], 3)
    else if any1 pos ["TIA", "TCH"] then (['X'], 3)
    else if at1 pos "TH".data ∨ at1 pos "TTH".data then
      if any1 (pos + 2) ["OM", "AM"] ∨ any1 0 ["VAN ", "VON "] ∨
          at1 0 "SCH".data then (['T'], 2)
      else (['0'], 2)
    else (['T'], if g (pos + 1) = 'T' ∨ g (pos + 1) = 'D' then 2 else 1)
  else if c = 'V' then (['F'], if g (pos + 1) = 'V' then 2 else 1)
  else if c = 'W' then
    if at1 pos "WR".data then (['R'], 2)
    else
      let lead : List Char :=
        if pos = 0 ∧ (isVowelDM (g (pos + 1)) ∨ at1 pos "WH".data) then
          (if isVowelDM (g (pos + 1)) then ['A'] else ['A'])
        else []
      if (pos = last ∧ isVowelDM (g (pos - 1))) ∨
          any1 (pos - 1) ["EWSKI", "EWSKY", "OWSKI", "OWSKY"] ∨
          at1 0 "SCH".data then (lead, 1)
      else if any1 pos ["WICZ", "WITZ"] then (lead ++ ['T', 'S'], 4)
      else (lead, 1)
  else if c = 'X' then
    let emit : List Char :=
      if ¬ (pos = last ∧ (any1 (pos - 3) ["IAU", "EAU"] ∨
          any1 (pos - 2) ["AU", "OU"])) then ['K', 'S'] else []
    (emit, if g (pos + 1) = 'C' ∨ g (pos + 1) = 'X' then 2 else 1)
  else if c = 'Z' then
    if g (pos + 1) = 'H' then (['J'], 2)
    else (['S'], if g (pos + 1) = 'Z' then 2 else 1)
  else ([], 1)

/-- Drive the letter machine from `pos` with `fuel` steps (every rule
advances by at least one, so `fuel = len` suffices). -/
def dmRun (w : List Char) (len last : Int) : Nat → Int → List Char → List Char
  | 0, _, pr => pr
  | fuel + 1, pos, pr =>
    if pos < len then
      let step := dmRule w len last pos
      dmRun w len last fuel (pos + max step.2 1) (pr ++ step.1)
    else pr

/-- `doublemetaphone(s)[0]`: the primary Double Metaphone code. -/
def dmPrimary (s : String) : String :=
  let w := s.data.map upperChar
  let len : Int := (w.length : Int)
  let last : Int := len - 1
  let start : Int :=
    if dmAtAny w 0 ["GN", "KN", "PN", "WR", "PS"] then 1 else 0
  if dmGet w 0 = 'X' then
    String.mk ('S' :: dmRun w len last w.length 1 [])
  else
    String.mk (dmRun w len last w.length start [])

/-! ## `_canon_name` — the phonetic surname folding -/

/-- `re.sub(r"[jy][eo]v", "ev", s)`: neutralise `-jev-`/`-jov-` glides
(left-to-right, non-overlapping). -/
def glideSub : List Char → List Char
  | a :: b :: 'v' :: rest =>
    if (a = 'j' ∨ a = 'y') ∧ (b = 'e' ∨ b = 'o') then
      'e' :: 'v' :: glideSub rest
    else a :: glideSub (b :: 'v' :: rest)
  | a :: rest => a :: glideSub rest
  | [] => []

/-- Python `str.replace(pat, repl)` for a two-character pattern and a
one-character replacement (global, left-to-right). -/
def replace2 (p1 p2 r : Char) : List Char → List Char
  | a :: b :: rest =>
    if a = p1 ∧ b = p2 then r :: replace2 p1 p2 r rest
    else a :: replace2 p1 p2 r (b :: rest)
  | l => l

/-- The `_MULTI` substitutions, applied in dict order. -/
def multiSub (l : List Char) : List Char :=
  replace2 'j' 'a' 'a' (replace2 'y' 'a' 'a'
    (replace2 'i' 'o' 'o' (replace2 'j' 'o' 'o'
      (replace2 'y' 'o' 'o' (replace2 'o' 'e' 'o' l)))))

/-- `str.translate(_DEFANG)`: `ё → o`, `œ → o`. -/
def defangChar (c : Char) : Char :=
  if c = 'ё' then 'o' else if c = 'œ' then 'o' else c

/-- `_SK_FAMILY.sub("sk", s)`: `(sky|ski|skij|skyi)$` — anchored at the end,
a four-character alternative (at the earlier position) wins over a
three-character one. -/
def skFamilySub (l : List Char) : List Char :=
  let ends : List Char → Bool := fun t => startsW t ((l.reverse).take t.length)
  if ends ['j', 'i', 'k', 's'] ∨ ends ['i', 'y', 'k', 's'] then
    (l.take (l.length - 4)) ++ ['s', 'k']
  else if ends ['y', 'k', 's'] ∨ ends ['i', 'k', 's'] then
    (l.take (l.length - 3)) ++ ['s', 'k']
  else l

/-- After emitting `a`: drop its immediate repetitions, then continue. -/
def dblStrip (a : Char) : List Char → List Char
  | [] => []
  | b :: rest => if a = b then dblStrip a rest else b :: dblStrip b rest

/-- `_DBL_LETTER.sub(r"\1", s)`: collapse each run of a repeated character
to a single occurrence (`(.)\1+` — `.` excludes newline, which cannot occur
in the `[a-z]` strings reaching this point). -/
def dblSub : List Char → List Char
  | [] => []
  | a :: rest => a :: dblStrip a rest

/-- `_NONAZ.sub("", s)`: keep only `[a-z]`. -/
def nonazSub (l : List Char) : List Char :=
  l.filter fun c => 'a' ≤ c ∧ c ≤ 'z'

/-- `_canon_name(token)`: one short ASCII fingerprint for a surname token:
glide neutralisation, `_MULTI` digraph folding, `_DEFANG`, NFKD/ASCII
projection, `-ski` conflation, double-letter collapse, `[a-z]` filter,
then the primary Double Metaphone code (falling back to the stripped
string when the code is empty). -/
def _canon_name (token : String) : String :=
  let s := lowerL token.data
  let s := glideSub s
  let s := multiSub s
  let s := s.map defangChar
  let s := asciiDropL s
  let s := skFamilySub s
  let s := dblSub s
  let s := nonazSub s
  let code := dmPrimary (String.mk s)
  if code = "" then String.mk s else code

/-! ## The page model

The network is a finite association list from exact URL to an abstract
`Page` holding precisely the features the Python code extracts from a
fetched body: the raw html text (for the substring classifiers), whether
`soup.select_one("tr.bibItemsEntry, tr[class*=bibItemsEntry]")` finds a
row, the hrefs harvested by `soup.select('a[href*="/record=b"]')` and
`soup.select('a[href*="/frameset"]')`, the `frame`/`iframe` sources, and
the display title/author fields of `_ester_fields`.  A URL absent from the
list behaves like `_download`'s empty body: an empty page. -/

structure Page where
  html : String
  bibItemsRow : Bool
  recordHrefs : List String
  framesetHrefs : List String
  frameSrcs : List String
  titleText : String
  authorText : String
  deriving Repr, DecidableEq

def emptyPage : Page := ⟨"", false, [], [], [], "", ""⟩

abbrev Net := List (String × Page)

def fetchPage (g : Net) (u : String) : Page :=
  match g.find? (fun e => e.1 = u) with
  | some e => e.2
  | none => emptyPage

/-- `urllib.parse.urljoin`, restricted to the shapes the crawl produces:
scheme-qualified references are kept, network-relative and absolute-path
references are resolved against the base, query-only references replace the
base query, and bare relative references replace the last path segment of
the base (dot-segment normalisation is not exercised by any claim and is
omitted). -/
def urljoin (base url : String) : String :=
  let bs := urlsplitStr base
  let us := urlsplitStr url
  let withQ : List Char → List Char := fun p =>
    if us.query ≠ [] then p ++ '?' :: us.query else p
  if us.scheme ≠ [] then url
  else if us.netloc ≠ [] then
    String.mk (bs.scheme ++ ':' :: '/' :: '/' :: us.netloc ++ withQ us.path)
  else if us.path = [] then
    String.mk (bs.scheme ++ ':' :: '/' :: '/' :: bs.netloc ++
      (if us.query ≠ [] then bs.path ++ '?' :: us.query
       else if bs.query ≠ [] then bs.path ++ '?' :: bs.query
       else bs.path))
  else if startsW ['/'] us.path then
    String.mk (bs.scheme ++ ':' :: '/' :: '/' :: bs.netloc ++ withQ us.path)
  else
    let dir := (bs.path.reverse.dropWhile (· ≠ '/')).reverse
    String.mk (bs.scheme ++ ':' :: '/' :: '/' :: bs.netloc ++
      withQ (dir ++ us.path))

/-! ## The record classifier -/

/-- `_NONBOOK_TAGS`. -/
def NONBOOK_TAGS : List String :=
  ["videosalvestis", "dvd", "blu-ray", "cd-plaat", "audiofile",
   "helisalvestis"]

/-- `_ERS_TAGS`. -/
def ERS_TAGS : List String :=
  ["1 võrguressurss", "tekstifail", "audiofile", "videosalvestis",
   "võrguteavik", "1 online resource", "online resource",
   "electronic bk", "electronic resource",
   "e-raamat", "ebook", "e-audiobook", "e-raamat",
   "digitaalkogu", "internetiväljaanne", "pdf (online)", "pdf-fail",
   "www-link"]

/-- `_is_nonbook(rec_url)`: some `_NONBOOK_TAGS` entry occurs in the
lower-cased page body.  (The cache-free variant; `_is_nonbook` in the
source has no memo.) -/
def _is_nonbook (g : Net) (u : String) : Bool :=
  NONBOOK_TAGS.any fun tag => hasSubStr tag (toLowerStr (fetchPage g u).html)

/-- `_is_eresource(rec_url)`, value only (the `ERS_CACHE` memo is modelled
separately below): no holdings-table row and some `_ERS_TAGS` entry in the
lower-cased body. -/
def _is_eresource (g : Net) (u : String) : Bool :=
  let p := fetchPage g u
  if p.bibItemsRow then false
  else ERS_TAGS.any fun tag =>
    hasSubStr (toLowerStr tag) (toLowerStr p.html)

/-- The classification the crawl applies to a record anchor, in the order
of `collect_record_links`: e-resource, then non-book, else physical. -/
inductive RecordClass where
  | EResource
  | NonBook
  | Physical
  deriving Repr, DecidableEq

def classify (g : Net) (u : String) : RecordClass :=
  if _is_eresource g u then .EResource
  else if _is_nonbook g u then .NonBook
  else .Physical

/-! ## `collect_record_links` -/

def _MAX_VISITED : Nat := 13

def _BAD_LEADS : List String :=
  ["/clientredirect", "/patroninfo~", "/validate/patroninfo",
   "/requestmulti~", "/mylistsmulti", "/logout",
   "?save=", "&save=", "?saved=", "&saved=",
   "?clear_saves=", "&clear_saves=",
   "/frameset&save", "?save_func="]

def isBadLead (u : String) : Bool :=
  _BAD_LEADS.any fun bad => hasSubStr bad u || startsW bad.data u.data

/-- Python `if limit and len(out) >= limit` (`limit = 0` is falsy). -/
def limitHit (limit : Option Nat) (n : Nat) : Bool :=
  match limit with
  | none => false
  | some k => k ≠ 0 && k ≤ n

/-- The record-anchor loop of one crawled page: classify each anchor in
order, skipping e-resources, non-books and duplicates; `Sum.inl` is the
early `return out` on reaching the limit, `Sum.inr` the updated
accumulator. -/
def harvest (g : Net) (base : String) (limit : Option Nat) :
    List String → List String → Sum (List String) (List String)
  | out, [] => .inr out
  | out, a :: rest =>
    -- `rcd` is the variable `rec` of the source (`rec` is reserved in Lean)
    let rcd := urljoin base a
    if _is_eresource g rcd then harvest g base limit out rest
    else if _is_nonbook g rcd then harvest g base limit out rest
    else if rcd ∈ out then harvest g base limit out rest
    else
      let out' := out ++ [rcd]
      if limitHit limit out'.length then .inl out'
      else harvest g base limit out' rest

/-- The frame/anchor-lead loop of one crawled page: `Sum.inl out` is the
abort `return out` once `_MAX_VISITED` distinct pages are in the visited
set and a fresh lead remains; `Sum.inr` the leads to enqueue, in order. -/
def pushLeads (g : Net) (seen : List String) (out : List String)
    (base : String) : List String → List String → Sum (List String) (List String)
  | acc, [] => .inr acc
  | acc, l :: rest =>
    if l = "" then pushLeads g seen out base acc rest
    else
      let nxt := urljoin base l
      if isBadLead nxt then pushLeads g seen out base acc rest
      else if _canon nxt ∈ seen then pushLeads g seen out base acc rest
      else if _MAX_VISITED ≤ seen.length then .inl out
      else pushLeads g seen out base (acc ++ [nxt]) rest

/-- The crawl state: FIFO frontier, visited canonical keys, accepted
records. -/
structure CrawlSt where
  q : List String
  seen : List String
  out : List String
  deriving Repr

/-- The last stage of one loop iteration: on the abort `return out` keep
`(aborted, seen')`, otherwise enqueue the new leads and continue via
`recur`. -/
def crawlPush (recur : CrawlSt → Option (List String × List String))
    (seen' q' out' : List String) :
    Sum (List String) (List String) → Option (List String × List String)
  | .inl aborted => some (aborted, seen')
  | .inr newItems => recur ⟨q' ++ newItems, seen', out'⟩

/-- The stage after the record harvest: an early `return out` on the limit
keeps `(finished, seen')`, otherwise the page's frame leads are pushed. -/
def crawlHarv (g : Net)
    (recur : CrawlSt → Option (List String × List String))
    (url : String) (q' seen' : List String) :
    Sum (List String) (List String) → Option (List String × List String)
  | .inl finished => some (finished, seen')
  | .inr out' =>
    crawlPush recur seen' q' out'
      (pushLeads g seen' out' url []
        ((fetchPage g url).framesetHrefs ++ (fetchPage g url).frameSrcs))

/-- One iteration of the `while q:` loop of `collect_record_links`, with
the recursive continuation abstracted.  Returns `(records, visited keys)`
on the loop's own `return`s, and hands the next state to `recur`
otherwise. -/
def crawlBody (g : Net) (limit : Option Nat)
    (recur : CrawlSt → Option (List String × List String)) (st : CrawlSt) :
    Option (List String × List String) :=
  match st.q with
  | [] => some (st.out, st.seen)
  | url :: q' =>
    let key := _canon url
    if key ∈ st.seen then recur ⟨q', st.seen, st.out⟩
    else
      crawlHarv g recur url q' (key :: st.seen)
        (harvest g url limit st.out (fetchPage g url).recordHrefs)

/-- The `while q:` loop of `collect_record_links`, with explicit fuel.
`none` only when the fuel runs out (`C1_crawl_terminates` shows the
computable fuel `crawlBound` always suffices). -/
def crawlF (g : Net) (limit : Option Nat) :
    Nat → CrawlSt → Option (List String × List String)
  | 0, _ => none
  | fuel + 1, st => crawlBody g limit (crawlF g limit fuel) st

/-- Every URL that can ever enter the frontier: the start URL and each
lead of each page of the graph, resolved against that page's URL. -/
def candTargets (g : Net) (start : String) : List String :=
  start :: g.flatMap fun e =>
    (e.2.framesetHrefs ++ e.2.frameSrcs).map (urljoin e.1)

/-- Canonical keys of candidate frontier URLs not yet visited. -/
def unseenCnt (g : Net) (start : String) (seen : List String) : Nat :=
  (((candTargets g start).map _canon).toFinset \ seen.toFinset).card

/-- An upper bound on the number of leads of any single page. -/
def maxLeads (g : Net) : Nat :=
  g.foldr (fun e m => max (e.2.framesetHrefs.length + e.2.frameSrcs.length) m) 0

/-- The termination measure of the crawl loop. -/
def crawlMeasure (g : Net) (start : String) (st : CrawlSt) : Nat :=
  unseenCnt g start st.seen * (maxLeads g + 1) + st.q.length

/-- A fuel bound sufficient for the whole crawl from `start`. -/
def crawlBound (g : Net) (start : String) : Nat :=
  crawlMeasure g start ⟨[start], [], []⟩ + 1

/-- `collect_record_links(start_url, limit)`. -/
def collect_record_links (g : Net) (start : String)
    (limit : Option Nat := none) : List String :=
  match crawlF g limit (crawlBound g start) ⟨[start], [], []⟩ with
  | some r => r.1
  | none => []

/-! ## The title/author matcher -/

/-- `_ester_fields(rec)`: the record's display title and author (each `""`
when the selector finds nothing). -/
def _ester_fields (g : Net) (recUrl : String) : String × String :=
  let p := fetchPage g recUrl
  (p.titleText, p.authorText)

/-- Python `str.lstrip()`. -/
def lstripStr (s : String) : String := String.mk (s.data.dropWhile isWs)

/-- The single-word title test:
`re.match(rf'^{re.escape(word)}(\W|$)', rec_fold)` — the record title
(ASCII-folded, left-stripped) starts with the word followed by a non-word
character or the end of the string. -/
def singleWordTtl (word : String) (recFold : String) : Bool :=
  startsW word.data recFold.data &&
    (match recFold.data.drop word.data.length with
     | [] => true
     | c :: _ => ¬ isWordCh c)

/-- The body of `_looks_like_same_book` after the `_ester_fields` fetch:
the title test (subset for multi-word titles, anchored-start for a single
word) and the author test (canonicalised surname codes). -/
def matcherCore (w_ttl w_aut r_ttl r_aut : String) : Bool :=
  if r_ttl = "" then false
  else
    let wanted_toks := _tokenise (strip_parens w_ttl)
    let record_toks := _tokenise r_ttl ∪ _tokenise r_aut
    let ttl_ok :=
      if wanted_toks = ∅ then true
      else if 1 < wanted_toks.card then decide (wanted_toks ⊆ record_toks)
      else
        -- `next(iter(wanted_toks))`: the unique token of the singleton set
        singleWordTtl ((tokenList (strip_parens w_ttl)).headD "")
          (lstripStr (asciiFold r_ttl))
    let surname_parts := _tokenise (_surname w_aut)
    let wanted_canon := surname_parts.image _canon_name
    let record_canon := record_toks.image _canon_name
    let auth_ok := surname_parts = ∅ || decide (wanted_canon ⊆ record_canon)
    ttl_ok && auth_ok

/-- `_looks_like_same_book(w_ttl, w_aut, rec_url)`. -/
def _looks_like_same_book (g : Net) (w_ttl w_aut recUrl : String) : Bool :=
  let fields := _ester_fields g recUrl
  matcherCore w_ttl w_aut fields.1 fields.2

/-! ## The fetch layer (`_download` and the `SESSION` Retry adapter)

`SESSION` mounts `HTTPAdapter(max_retries=Retry(total=3, backoff_factor=2.0,
status_forcelist=[502, 503, 504], allowed_methods=["GET", "HEAD"]))`, so one
`SESSION.get` performs up to four wire attempts.  A wire attempt — the
server's answer as seen below the adapter — either delivers a response,
times out, or is refused.  The adapter retries a failed attempt while the
`total` budget lasts; a response whose status is in the forcelist counts as
a failure, so such a response never reaches the caller.  When the budget is
exhausted, the exhausting attempt determines the exception `SESSION.get`
raises: urllib3's `MaxRetryError(ResponseError)` for a forcelist status,
which requests rewraps as `requests.exceptions.RetryError`; `ConnectTimeout`
(a `requests.Timeout`) for a timeout; `requests.ConnectionError` for a
refused connection or DNS failure.

`_download` itself catches `requests.Timeout` / `ReadTimeout` (retrying
with backoff) and `requests.HTTPError` from `raise_for_status` (returning
an empty body at once); `RetryError` and `ConnectionError` are subclasses
of neither, match neither `except` clause, and propagate to the caller,
modelled as `Except.error`. -/

/-- One wire attempt, as the server answers it below the Retry adapter. -/
inductive RawResp where
  | resp (status : Nat) (body : String)
  | timedOut
  | refused
  deriving Repr, DecidableEq

/-- `status_forcelist=[502, 503, 504]` of the mounted `Retry`. -/
def forcelist (status : Nat) : Bool :=
  status == 502 || status == 503 || status == 504

/-- The outcome of one `SESSION.get` call: a delivered response, or one of
the exceptions the mounted adapter can raise. -/
inductive GetOutcome where
  | success (status : Nat) (body : String)
  | timeout
  | connFail
  | retryError
  deriving Repr, DecidableEq

/-- The mounted Retry adapter: wire attempt `k`, with `fuel` retry
increments left (`Retry(total=3)` grants three increments past the initial
attempt; the failure that finds the budget exhausted raises). -/
def adapterGet (wire : Nat → RawResp) : Nat → Nat → GetOutcome
  | k, 0 =>
    match wire k with
    | .resp s b => if forcelist s then .retryError else .success s b
    | .timedOut => .timeout
    | .refused => .connFail
  | k, f + 1 =>
    match wire k with
    | .resp s b => if forcelist s then adapterGet wire (k + 1) f else .success s b
    | .timedOut => adapterGet wire (k + 1) f
    | .refused => adapterGet wire (k + 1) f

/-- One `SESSION.get`: the adapter run from wire attempt `0` with the full
`total=3` budget (each `SESSION.get` starts from the immutable `_retry`
template). -/
def sessionGet (wire : Nat → RawResp) : GetOutcome :=
  adapterGet wire 0 3

/-- An exception escaping `_download`: `requests.ConnectionError` or
`requests.exceptions.RetryError`. -/
inductive FetchErr where
  | connError
  | retryError
  deriving Repr, DecidableEq

/-- The cache is `HTML_CACHE`; the result pairs the returned body with the
updated cache. -/
abbrev Cache := List (String × String)

def cacheLookup (c : Cache) (u : String) : Option String :=
  match c.find? (fun e => e.1 = u) with
  | some e => some e.2
  | none => none

/-- The retry loop of `_download`, from attempt number `attempt` with
`left` attempts remaining (`left = tries - attempt + 1`). -/
def downloadLoop (oracle : Nat → GetOutcome) (cache : Cache) (url : String) :
    Nat → Nat → Except FetchErr (String × Cache)
  | _, 0 => .ok ("", (url, "") :: cache)   -- loop exhausted (`tries = 0`)
  | attempt, left + 1 =>
    match oracle attempt with
    | .success status body =>
      if 400 ≤ status ∧ status < 600 then
        -- raise_for_status → HTTPError, caught: cache "" and return ""
        .ok ("", (url, "") :: cache)
      else
        .ok (body, (url, body) :: cache)
    | .timeout =>
      if left = 0 then
        -- attempt == tries: give up, cache "" and return ""
        .ok ("", (url, "") :: cache)
      else downloadLoop oracle cache url (attempt + 1) left
    | .connFail => .error .connError
    | .retryError => .error .retryError

/-- `_download(url)` with its in-memory cache and `tries` attempts
(default 3); `wire a` is the server's wire-level behaviour during attempt
`a`'s `SESSION.get`. -/
def _download (wire : Nat → Nat → RawResp) (cache : Cache) (url : String)
    (tries : Nat := 3) : Except FetchErr (String × Cache) :=
  match cacheLookup cache url with
  | some body => .ok (body, cache)
  | none =>
    match tries with
    | 0 => .ok ("", (url, "") :: cache)
    | left + 1 => downloadLoop (fun a => sessionGet (wire a)) cache url 1 (left + 1)

/-! ## The `ERS_CACHE` memo of `_is_eresource`

`_is_eresource` memoises its verdict in `ERS_CACHE`, keyed by the exact
record URL.  The instrumented model returns the verdict, the updated
cache, and whether the verdict was computed on this call (`false` = served
from the memo). -/

def isEresourceMemo (g : Net) (cache : List (String × Bool)) (u : String) :
    Bool × List (String × Bool) × Bool :=
  match cache.find? (fun e => e.1 = u) with
  | some e => (e.2, cache, false)
  | none =>
    let verdict := _is_eresource g u
    (verdict, (u, verdict) :: cache, true)

/-! ## The holdings resolver -/

/-- Search for `\b(b\d{7})`: the first `b` followed by seven digits and
preceded by a word boundary; returns the nine.. seven-digit bib id with its
leading `b`. -/
def findBibAux : Option Char → List Char → Option String
  | _, [] => none
  | prev, c :: rest =>
    let boundary : Bool :=
      match prev with
      | none => true
      | some p => ¬ isWordCh p
    if c = 'b' && boundary && (rest.take 7).length == 7 &&
        (rest.take 7).all isDigitCh then
      some (String.mk ('b' :: rest.take 7))
    else findBibAux (some c) rest

def findBib (s : String) : Option String := findBibAux none s.data

def hasBibAux : List Char → Bool
  | [] => false
  | c :: rest =>
    (c = 'b' && (rest.take 7).length = 7 && (rest.take 7).all isDigitCh)
      || hasBibAux rest

/-- Does `b\d{7}` occur anywhere as a plain substring (the word-boundary-
free reading of claim C10)? -/
def hasBibSubstring (s : String) : Bool := hasBibAux s.data

/-- One holdings row `(location, call number, status)`. -/
abbrev HoldingsRow := String × String × String

def ESTER : String := "https://www.ester.ee"

/-- The tier-① URL of `holdings`. -/
def holdingsBaseUrl (bib : String) : String :=
  ESTER ++ "/search~S8*est?/." ++ bib ++ "/." ++ bib ++
    "/1,1,1,B/holdings~" ++ bib ++ "&FF=&1,0,/indexsort=-"

/-- Python `base.replace("holdings~", "holdingsa~")` (global; the base URL
contains the pattern exactly once).  Fuel-driven for kernel evaluation;
each step consumes at least one character, so fuel equal to the length of
the string suffices. -/
def replaceHAF : Nat → List Char → List Char
  | 0, l => l
  | _ + 1, [] => []
  | fuel + 1, c :: cs =>
    if startsW "holdings~".data (c :: cs) then
      "holdingsa~".data ++ replaceHAF fuel ((c :: cs).drop 9)
    else c :: replaceHAF fuel cs

def replaceHoldingsA (l : List Char) : List Char := replaceHAF l.length l

/-- `holdings(rec)`: extract the bib id, then try the primary holdings
page, the alternate "available copies" page, and the EPiK JSON API, in
that order, returning the first non-empty tier.  `scrape` abstracts
`_scrape_holdings_html` and `api` abstracts `_copies_via_api`. -/
def holdings (scrape : String → List HoldingsRow)
    (api : String → List HoldingsRow) (recUrl : String) : List HoldingsRow :=
  match findBib recUrl with
  | none => []
  | some bib =>
    let base := holdingsBaseUrl bib
    let rows := scrape base
    if rows ≠ [] then rows
    else
      let alt := String.mk (replaceHoldingsA base.data)
      let rows := scrape alt
      if rows ≠ [] then rows
      else api bib

/-! ## The search dispatcher

`probe` crawls a constructed query URL with `collect_record_links(url,
limit=4)`; the four probes differ only in the URL.  `search` first accepts
any ISBN hit unconditionally, then runs the verified probes in order.  The
matcher is a parameter of `searchCore` exactly as `_candidates` closes
over `_looks_like_same_book` in the source. -/

def SEARCH : String := ESTER ++ "/search~S8*est"

/-- `ester_enc`: non-ASCII characters become `{uXXXX}` code-point escapes. -/
def hexDigits : List Char :=
  ['0', '1', '2', '3', '4', '5', '6', '7', '8', '9', 'A', 'B', 'C', 'D', 'E', 'F']

def toHex4 (n : Nat) : List Char :=
  [hexDigits.getD (n / 4096 % 16) '0', hexDigits.getD (n / 256 % 16) '0',
   hexDigits.getD (n / 16 % 16) '0', hexDigits.getD (n % 16) '0']

def ester_enc (s : String) : String :=
  String.mk (s.data.flatMap fun ch =>
    if ch.toNat < 128 then [ch]
    else '{' :: 'u' :: toHex4 ch.toNat ++ ['}'])

/-- `urllib.parse.quote_plus(enc, safe='{}')`: spaces become `+`, ASCII
alphanumerics, `_.-~` and the safe braces stay, everything else becomes
percent-escapes (the strings quoted here are pure ASCII after
`ester_enc`). -/
def quotePlusChar (c : Char) : List Char :=
  if c = ' ' then ['+']
  else if isAsciiAlphaCh c || isDigitCh c || c = '_' || c = '.' || c = '-' ||
      c = '~' || c = '\x7b' || c = '\x7d' then [c]
  else
    let n := c.toNat
    '%' :: [hexDigits.getD (n / 16 % 16) '0', hexDigits.getD (n % 16) '0']

def quote_plus (s : String) : String :=
  String.mk (s.data.flatMap quotePlusChar)

/-- `squeeze`: collapse runs of two or more whitespace characters to one
space (`re.compile(r"\s{2,}")`); a lone whitespace character is kept
verbatim.  `inRun = true` while consuming the rest of a collapsed run. -/
def squeezeGo : Bool → List Char → List Char
  | _, [] => []
  | true, c :: rest =>
    if isWs c then squeezeGo true rest else c :: squeezeGo false rest
  | false, c :: rest =>
    if isWs c && (match rest with | d :: _ => isWs d | [] => false) then
      ' ' :: squeezeGo true rest
    else c :: squeezeGo false rest

def squeeze (s : String) : String := String.mk (squeezeGo false s.data)

/-- `norm_dash`: unicode dashes to `-`. -/
def norm_dash (s : String) : String :=
  String.mk (s.data.map fun c =>
    if ('‐' ≤ c ∧ c ≤ '―') ∨ c = '−' then '-' else c)

def by_isbn_url (isbn : String) : String :=
  SEARCH ++ "/X?searchtype=X&searcharg=" ++ isbn ++
    "&searchscope=8&SORT=DZ&extended=0&SUBMIT=OTSI"

def by_title_index_url (t : String) : String :=
  SEARCH ++ "/X?searchtype=t&searcharg=" ++
    quote_plus (ester_enc (norm_dash t)) ++
    "&searchscope=8&SORT=DZ&extended=0&SUBMIT=OTSI"

def by_keyword_url (a t : String) : String :=
  SEARCH ++ "/X?searchtype=X&searcharg=" ++
    quote_plus (ester_enc (norm_dash (squeeze (a ++ " " ++ t)))) ++
    "&searchscope=8&SORT=DZ&extended=0&SUBMIT=OTSI"

/-- `probe(label, term, url)`: crawl the query URL, keeping at most four
records. -/
def probe (g : Net) (url : String) : List String :=
  collect_record_links g url (some 4)

def by_isbn (g : Net) (isbn : String) : List String :=
  probe g (by_isbn_url isbn)

def by_title_index (g : Net) (t : String) : List String :=
  probe g (by_title_index_url t)

def by_keyword (g : Net) (a t : String) : List String :=
  probe g (by_keyword_url a t)

/-- The `_candidates` filter: the first record of `recs` accepted by the
matcher, as a singleton (or `[]`). -/
def firstMatch (matcher : String → Bool) : List String → List String
  | [] => []
  | r :: rest => if matcher r then [r] else firstMatch matcher rest

/-- `search(author, title, isbn)` with the matcher injected (the source
closes over `_looks_like_same_book`). -/
def searchCore (g : Net) (matcher : String → String → String → Bool)
    (author title isbn : String) : List String :=
  let title := strip_parens title
  if isbn ≠ "" ∧ by_isbn g isbn ≠ [] then
    [(by_isbn g isbn).headD ""]
  else
    let m := fun r => matcher title author r
    let r1 := firstMatch m (by_title_index g title)
    if r1 ≠ [] then r1
    else
      let r2 := firstMatch m (by_keyword g author title)
      if r2 ≠ [] then r2
      else firstMatch m (by_keyword g "" title)

/-- `search` proper, with the real matcher. -/
def search (g : Net) (author title isbn : String) : List String :=
  searchCore g (fun t a r => _looks_like_same_book g t a r) author title isbn

/-! # Theorems for the claims -/

/-! ## C7: the Matcher subset law -/

theorem matcherCore_subset {w_ttl w_aut r_ttl r_aut : String}
    (hmulti : 1 < (_tokenise (strip_parens w_ttl)).card)
    (hmatch : matcherCore w_ttl w_aut r_ttl r_aut = true) :
    _tokenise (strip_parens w_ttl) ⊆ _tokenise r_ttl ∪ _tokenise r_aut := by
  unfold matcherCore at hmatch
  by_cases h0 : r_ttl = ""
  · simp [h0] at hmatch
  · rw [if_neg h0] at hmatch
    simp only [Bool.and_eq_true] at hmatch
    have hne : ¬ (_tokenise (strip_parens w_ttl) = ∅) := by
      intro h
      rw [h] at hmulti
      simp at hmulti
    rw [if_neg hne, if_pos hmulti] at hmatch
    exact of_decide_eq_true hmatch.1

/-- C7: whenever the matcher accepts a multi-word wanted title, every token
of the paren-stripped, tokenised wanted title occurs in the record's
combined title+author token set. -/
theorem C7_matcher_subset_law (g : Net) (w_ttl w_aut recUrl : String)
    (hmulti : 1 < (_tokenise (strip_parens w_ttl)).card)
    (hmatch : _looks_like_same_book g w_ttl w_aut recUrl = true) :
    _tokenise (strip_parens w_ttl) ⊆
      _tokenise (_ester_fields g recUrl).1 ∪
        _tokenise (_ester_fields g recUrl).2 :=
  matcherCore_subset hmulti hmatch

def c7net : Net :=
  [("http://h/record=b1000001",
    { html := "", bibItemsRow := true, recordHrefs := [], framesetHrefs := [],
      frameSrcs := [], titleText := "Tere hommikust, kurbus",
      authorText := "Sagan, Françoise" })]

theorem C7_matcher_subset_law_witness :
    (1 < (_tokenise (strip_parens "Tere hommikust (romaan)")).card ∧
      _looks_like_same_book c7net "Tere hommikust (romaan)" "Sagan, Françoise"
        "http://h/record=b1000001" = true) ∧
    _tokenise (strip_parens "Tere hommikust (romaan)") ⊆
      _tokenise (_ester_fields c7net "http://h/record=b1000001").1 ∪
        _tokenise (_ester_fields c7net "http://h/record=b1000001").2 :=
  ⟨⟨by decide, by decide⟩,
    C7_matcher_subset_law c7net "Tere hommikust (romaan)" "Sagan, Françoise"
      "http://h/record=b1000001" (by decide) (by decide)⟩

/-! ## C10: no bib id in the record URL -/

theorem findBibAux_hasBib : ∀ (prev : Option Char) (l : List Char) (b : String),
    findBibAux prev l = some b → hasBibAux l = true := by
  intro prev l
  induction l generalizing prev with
  | nil => intro b h; simp [findBibAux] at h
  | cons c rest ih =>
    intro b h
    simp only [findBibAux] at h
    split at h
    · rename_i hcond
      simp only [Bool.and_eq_true, decide_eq_true_eq, beq_iff_eq] at hcond
      simp only [hasBibAux, Bool.or_eq_true, Bool.and_eq_true, decide_eq_true_eq]
      exact Or.inl ⟨⟨hcond.1.1.1, hcond.1.2⟩, hcond.2⟩
    · simp only [hasBibAux, Bool.or_eq_true]
      exact Or.inr (ih _ _ h)

/-- C10: when the record URL contains no `b` followed by seven digits
anywhere, `holdings` returns the empty list — for every behaviour of the
scraping and API tiers, i.e. without attempting any tier. -/
theorem C10_holdings_no_bib (scrape api : String → List HoldingsRow)
    (recUrl : String) (h : hasBibSubstring recUrl = false) :
    holdings scrape api recUrl = [] := by
  have hfb : findBib recUrl = none := by
    cases hh : findBib recUrl with
    | none => rfl
    | some b =>
      have := findBibAux_hasBib none recUrl.data b hh
      rw [hasBibSubstring] at h
      rw [this] at h
      cases h
  simp [holdings, hfb]

theorem C10_holdings_no_bib_witness :
    hasBibSubstring "https://www.ester.ee/record=x" = false ∧
    holdings (fun _ => [("TLÜAR", "12.345", "KOHAL")])
      (fun _ => [("TÜR", "9.9", "KOHAL")]) "https://www.ester.ee/record=x" = [] :=
  ⟨by decide,
    C10_holdings_no_bib (fun _ => [("TLÜAR", "12.345", "KOHAL")])
      (fun _ => [("TÜR", "9.9", "KOHAL")]) "https://www.ester.ee/record=x"
      (by decide)⟩

/-! ## C8: holdings tier precedence -/

/-- C8: when tier ① (the primary holdings HTML view) yields at least one
row, `holdings` returns exactly those rows; the result is unchanged under
arbitrary reinterpretation of the alternate-view scrape (`scrape2` need
only agree on the tier-① URL) and of the JSON tier — the later tiers are
never consulted and no merging occurs. -/
theorem C8_holdings_tier_precedence
    (scrape1 scrape2 api1 api2 : String → List HoldingsRow)
    (recUrl bib : String)
    (hb : findBib recUrl = some bib)
    (hagree : scrape1 (holdingsBaseUrl bib) = scrape2 (holdingsBaseUrl bib))
    (hne : scrape1 (holdingsBaseUrl bib) ≠ []) :
    holdings scrape1 api1 recUrl = scrape1 (holdingsBaseUrl bib) ∧
    holdings scrape2 api2 recUrl = scrape1 (holdingsBaseUrl bib) := by
  constructor
  · simp [holdings, hb, hne]
  · rw [hagree] at hne ⊢
    simp [holdings, hb, hne]

def c8scrape : String → List HoldingsRow := fun u =>
  if u = holdingsBaseUrl "b1784914" then [("TLÜAR", "12.345", "KOHAL")] else []

theorem C8_holdings_tier_precedence_witness :
    (findBib "https://www.ester.ee/record=b1784914~S8*est" = some "b1784914" ∧
      c8scrape (holdingsBaseUrl "b1784914") ≠ []) ∧
    holdings c8scrape (fun _ => [("TÜR", "9.9", "KOHAL")])
        "https://www.ester.ee/record=b1784914~S8*est" =
      c8scrape (holdingsBaseUrl "b1784914") :=
  ⟨⟨by decide, by decide⟩,
    (C8_holdings_tier_precedence c8scrape c8scrape
      (fun _ => [("TÜR", "9.9", "KOHAL")]) (fun _ => [])
      "https://www.ester.ee/record=b1784914~S8*est" "b1784914"
      (by decide) rfl (by decide)).1⟩

/-! ## C6: the ISBN probe accepts unconditionally -/

/-- C6: with an ISBN present and at least one physical candidate from the
ISBN probe's crawl, `search` returns that first candidate: the result is
the same for every matcher (the title/author Matcher is never consulted)
and the later probes contribute nothing. -/
theorem C6_isbn_unconditional (g : Net)
    (m1 m2 : String → String → String → Bool) (author title isbn : String)
    (hisbn : isbn ≠ "") (hhit : by_isbn g isbn ≠ []) :
    searchCore g m1 author title isbn = [(by_isbn g isbn).headD ""] ∧
    searchCore g m1 author title isbn = searchCore g m2 author title isbn ∧
    search g author title isbn = [(by_isbn g isbn).headD ""] := by
  refine ⟨?_, ?_, ?_⟩ <;> simp [searchCore, search, hisbn, hhit]

def c6net : Net :=
  [(by_isbn_url "9789916127209",
    { html := "", bibItemsRow := false,
      recordHrefs := ["http://h/record=b7777777"], framesetHrefs := [],
      frameSrcs := [], titleText := "", authorText := "" })]

theorem C6_isbn_unconditional_witness :
    (("9789916127209" : String) ≠ "" ∧ by_isbn c6net "9789916127209" ≠ []) ∧
    search c6net "Aleksijevitš, Svetlana" "Tšernobõli palve" "9789916127209" =
      [(by_isbn c6net "9789916127209").headD ""] :=
  ⟨⟨by decide, by decide⟩,
    (C6_isbn_unconditional c6net
      (fun t a r => _looks_like_same_book c6net t a r) (fun _ _ _ => false)
      "Aleksijevitš, Svetlana" "Tšernobõli palve" "9789916127209"
      (by decide) (by decide)).2.2⟩

/-! ## C5: `_download` and exception propagation -/

def isOkE (e : Except FetchErr (String × Cache)) : Bool :=
  match e with
  | .ok _ => true
  | .error _ => false

/-- C5 counterexample: a connection failure (refused connection / DNS
error) is not among the exceptions `_download` catches — the adapter
exhausts its retries and `SESSION.get` raises `requests.ConnectionError` —
so it propagates to the caller instead of degrading to an empty body. -/
theorem C5_counterexample :
    _download (fun _ _ => .refused) [] "https://www.ester.ee/x" =
      .error .connError := rfl

theorem downloadLoop_ok (oracle : Nat → GetOutcome) (cache : Cache)
    (url : String)
    (hno : ∀ a, oracle a ≠ .connFail ∧ oracle a ≠ .retryError) :
    ∀ (left attempt : Nat), isOkE (downloadLoop oracle cache url attempt left) = true := by
  intro left
  induction left with
  | zero => intro attempt; rfl
  | succ n ih =>
    intro attempt
    simp only [downloadLoop]
    split
    · split <;> rfl
    · by_cases h0 : n = 0
      · simp [h0, isOkE]
      · simp only [if_neg h0]
        exact ih (attempt + 1)
    · rename_i heq
      exact absurd heq (hno attempt).1
    · rename_i heq
      exact absurd heq (hno attempt).2

theorem downloadLoop_timeout (oracle : Nat → GetOutcome) (cache : Cache)
    (url : String) (hto : ∀ a, oracle a = .timeout) :
    ∀ (left attempt : Nat),
      downloadLoop oracle cache url attempt left = .ok ("", (url, "") :: cache) := by
  intro left
  induction left with
  | zero => intro attempt; rfl
  | succ n ih =>
    intro attempt
    simp only [downloadLoop, hto attempt]
    by_cases h0 : n = 0
    · simp [h0]
    · simp only [if_neg h0]
      exact ih (attempt + 1)

/-- The adapter never delivers a response whose status is in the
forcelist: such a status is either retried away or raised as
`RetryError`. -/
theorem adapterGet_not_forcelist (wire : Nat → RawResp) :
    ∀ (fuel k s : Nat) (b : String),
      adapterGet wire k fuel = .success s b → forcelist s = false := by
  intro fuel
  induction fuel with
  | zero =>
    intro k s b h
    cases hw : wire k with
    | resp t c =>
      simp only [adapterGet, hw] at h
      by_cases hf : forcelist t = true
      · rw [if_pos hf] at h; exact absurd h (by simp)
      · rw [if_neg hf] at h
        injection h with h1 _
        rw [← h1]
        exact Bool.not_eq_true _ |>.mp hf
    | timedOut => simp [adapterGet, hw] at h
    | refused => simp [adapterGet, hw] at h
  | succ f ih =>
    intro k s b h
    cases hw : wire k with
    | resp t c =>
      simp only [adapterGet, hw] at h
      by_cases hf : forcelist t = true
      · rw [if_pos hf] at h; exact ih (k + 1) s b h
      · rw [if_neg hf] at h
        injection h with h1 _
        rw [← h1]
        exact Bool.not_eq_true _ |>.mp hf
    | timedOut => simp only [adapterGet, hw] at h; exact ih (k + 1) s b h
    | refused => simp only [adapterGet, hw] at h; exact ih (k + 1) s b h

/-- A wire attempt whose answer the `Retry` adapter treats as a
forcelist-status failure. -/
def rawForce (r : RawResp) : Bool :=
  match r with
  | .resp s _ => forcelist s
  | _ => false

/-- When every wire attempt answers with a forcelist status, the adapter
exhausts its budget and `SESSION.get` raises `RetryError`. -/
theorem adapterGet_force (wire : Nat → RawResp)
    (hall : ∀ j, rawForce (wire j) = true) :
    ∀ (fuel k : Nat), adapterGet wire k fuel = .retryError := by
  intro fuel
  induction fuel with
  | zero =>
    intro k
    have h := hall k
    cases hw : wire k with
    | resp t c =>
      rw [hw] at h; simp only [rawForce] at h
      simp only [adapterGet, hw, if_pos h]
    | timedOut => rw [hw] at h; simp [rawForce] at h
    | refused => rw [hw] at h; simp [rawForce] at h
  | succ f ih =>
    intro k
    have h := hall k
    cases hw : wire k with
    | resp t c =>
      rw [hw] at h; simp only [rawForce] at h
      simp only [adapterGet, hw, if_pos h]
      exact ih (k + 1)
    | timedOut => rw [hw] at h; simp [rawForce] at h
    | refused => rw [hw] at h; simp [rawForce] at h

/-- C5 amended: (i) the mounted Retry adapter never delivers a 502/503/504
response, so no such status reaches `raise_for_status`; (ii) as long as no
`SESSION.get` raises `ConnectionError` or `RetryError`, `_download`
propagates no exception; (iii) when every attempt times out and the URL is
not cached, the exhausted retries degrade to an empty body; (iv) a
delivered 4xx/5xx response (necessarily outside the forcelist, by (i)) on
the first attempt degrades to an empty body at once; but (v) a server
persistently answering 502/503/504 makes `SESSION.get` raise
`requests.RetryError`, caught by neither `except` clause, and `_download`
propagates it — just as it propagates a plain connection failure. -/
theorem C5_download_fail_soft (wire : Nat → Nat → RawResp) (cache : Cache)
    (url : String) (tries : Nat) :
    (∀ a s b, sessionGet (wire a) = .success s b → forcelist s = false) ∧
    ((∀ a, sessionGet (wire a) ≠ .connFail ∧ sessionGet (wire a) ≠ .retryError) →
      isOkE (_download wire cache url tries) = true) ∧
    ((∀ a, sessionGet (wire a) = .timeout) → cacheLookup cache url = none →
      _download wire cache url tries = .ok ("", (url, "") :: cache)) ∧
    (∀ s b, sessionGet (wire 1) = .success s b → 400 ≤ s → s < 600 →
      cacheLookup cache url = none → ∀ n, tries = n + 1 →
      _download wire cache url tries = .ok ("", (url, "") :: cache)) ∧
    ((∀ j, rawForce (wire 1 j) = true) → cacheLookup cache url = none →
      ∀ n, tries = n + 1 →
      _download wire cache url tries = .error .retryError) := by
  refine ⟨?_, ?_, ?_, ?_, ?_⟩
  · intro a s b h
    exact adapterGet_not_forcelist (wire a) 3 0 s b h
  · intro hno
    unfold _download
    cases h : cacheLookup cache url with
    | some body => rfl
    | none =>
      cases tries with
      | zero => rfl
      | succ n =>
        exact downloadLoop_ok (fun a => sessionGet (wire a)) cache url hno (n + 1) 1
  · intro hto hnone
    unfold _download
    rw [hnone]
    cases tries with
    | zero => rfl
    | succ n =>
      exact downloadLoop_timeout (fun a => sessionGet (wire a)) cache url hto (n + 1) 1
  · intro s b hsb hs1 hs2 hnone n htries
    unfold _download
    rw [hnone, htries]
    simp only [downloadLoop, hsb]
    rw [if_pos ⟨hs1, hs2⟩]
  · intro hforce hnone n htries
    have hret : sessionGet (wire 1) = .retryError :=
      adapterGet_force (wire 1) hforce 3 0
    unfold _download
    rw [hnone, htries]
    simp only [downloadLoop, hret]

theorem C5_download_fail_soft_witness :
    forcelist 200 = false ∧
    isOkE (_download (fun _ _ => .timedOut) [] "https://www.ester.ee/x" 3) = true ∧
    _download (fun _ _ => .timedOut) [] "https://www.ester.ee/x" 3 =
      .ok ("", ("https://www.ester.ee/x", "") :: []) ∧
    _download (fun _ _ => .resp 404 "not found") [] "https://www.ester.ee/x" 3 =
      .ok ("", ("https://www.ester.ee/x", "") :: []) ∧
    _download (fun _ _ => .resp 503 "bad gateway") [] "https://www.ester.ee/x" 3 =
      .error .retryError :=
  And.intro
    ((C5_download_fail_soft (fun _ _ => .resp 200 "ok") []
        "https://www.ester.ee/x" 3).1 1 200 "ok" rfl)
    (And.intro
      ((C5_download_fail_soft (fun _ _ => .timedOut) []
          "https://www.ester.ee/x" 3).2.1
        (fun _ => And.intro (fun h => nomatch h) (fun h => nomatch h)))
      (And.intro
        ((C5_download_fail_soft (fun _ _ => .timedOut) []
            "https://www.ester.ee/x" 3).2.2.1 (fun _ => rfl) rfl)
        (And.intro
          ((C5_download_fail_soft (fun _ _ => .resp 404 "not found") []
              "https://www.ester.ee/x" 3).2.2.2.1 404 "not found"
            rfl (by decide) (by decide) rfl 2 rfl)
          ((C5_download_fail_soft (fun _ _ => .resp 503 "bad gateway") []
              "https://www.ester.ee/x" 3).2.2.2.2 (fun _ => rfl) rfl 2 rfl))))

/-! ## C9: classification memoisation -/

/-- C9 counterexample: two distinct URLs with the same canonical form — a
hit-list record URL with and without its slice counter — are memoised under
their exact URL strings, so the e-resource verdict is computed twice in one
run for one canonical URL. -/
theorem C9_counterexample :
    ("http://h/frameset?a&1,1," : String) ≠ "http://h/frameset?a" ∧
    _canon "http://h/frameset?a&1,1," = _canon "http://h/frameset?a" ∧
    (isEresourceMemo [] [] "http://h/frameset?a&1,1,").2.2 = true ∧
    (isEresourceMemo []
        (isEresourceMemo [] [] "http://h/frameset?a&1,1,").2.1
        "http://h/frameset?a").2.2 = true :=
  ⟨by decide, by decide, rfl, rfl⟩

/-- C9 amended: the e-resource verdict is memoised by the exact record URL:
repeating a query for the same URL is answered from `ERS_CACHE` with the
same verdict, without recomputation and without touching the cache.  (Two
URLs with equal canonical forms hit different keys, and `_is_nonbook` has
no memo at all — see the counterexample.) -/
theorem C9_memo_exact_url (g : Net) (cache : List (String × Bool))
    (u : String) :
    (isEresourceMemo g (isEresourceMemo g cache u).2.1 u).1 =
      (isEresourceMemo g cache u).1 ∧
    (isEresourceMemo g (isEresourceMemo g cache u).2.1 u).2.1 =
      (isEresourceMemo g cache u).2.1 ∧
    (isEresourceMemo g (isEresourceMemo g cache u).2.1 u).2.2 = false := by
  unfold isEresourceMemo
  cases h : cache.find? (fun e => e.1 = u) with
  | some e => simp [h]
  | none => simp [h, List.find?]

/-! ## C2: classifier decision order -/

def c2net : Net :=
  [("http://h/record=b2222222",
    { html := "Videosalvestis DVD-mängijale", bibItemsRow := true,
      recordHrefs := [], framesetHrefs := [], frameSrcs := [],
      titleText := "", authorText := "" })]

/-- C2 counterexample: a record page carrying both the physical-holdings
table marker and a non-book carrier phrase is classified NonBook by the
crawl, not Physical as the claim's decision order requires. -/
theorem C2_counterexample :
    (fetchPage c2net "http://h/record=b2222222").bibItemsRow = true ∧
    hasSubStr "dvd"
      (toLowerStr (fetchPage c2net "http://h/record=b2222222").html) = true ∧
    classify c2net "http://h/record=b2222222" = .NonBook ∧
    classify c2net "http://h/record=b2222222" ≠ .Physical :=
  ⟨rfl, by decide, by decide, by decide⟩

/-- C2 amended: the holdings-table marker blocks only the EResource
verdict.  The non-book check is independent of the marker: a page with the
marker and a carrier phrase is classified NonBook; with the marker and no
carrier phrase, Physical. -/
theorem C2_classifier_order (g : Net) (u : String)
    (hrow : (fetchPage g u).bibItemsRow = true) :
    _is_eresource g u = false ∧
    (_is_nonbook g u = true → classify g u = .NonBook) ∧
    (_is_nonbook g u = false → classify g u = .Physical) := by
  have he : _is_eresource g u = false := by simp [_is_eresource, hrow]
  refine ⟨he, ?_, ?_⟩ <;> intro h <;> simp [classify, he, h]

theorem C2_classifier_order_witness :
    (fetchPage c2net "http://h/record=b2222222").bibItemsRow = true ∧
    (_is_eresource c2net "http://h/record=b2222222" = false ∧
      (_is_nonbook c2net "http://h/record=b2222222" = true →
        classify c2net "http://h/record=b2222222" = .NonBook) ∧
      (_is_nonbook c2net "http://h/record=b2222222" = false →
        classify c2net "http://h/record=b2222222" = .Physical)) :=
  ⟨rfl, C2_classifier_order c2net "http://h/record=b2222222" rfl⟩

/-! ## C4: phonetic name folding -/

def c4net : Net :=
  [("http://h/record=b5555555",
    { html := "", bibItemsRow := true, recordHrefs := [], framesetHrefs := [],
      frameSrcs := [], titleText := "Tšernobõli palve : tuleviku kroonika",
      authorText := "Alexievich, Svetlana, 1948-" })]

/-- C4 counterexample: folding the surname of `"Aleksijevitš, Svetlana"`
and the surname token `"Alexievich"` yields different phonetic codes
(`-vits` renders as metaphone `TS`, `-vich` as `X`), and the matcher
consequently rejects the spec's example pair on its author test. -/
theorem C4_counterexample :
    _canon_name (_surname "Aleksijevitš, Svetlana") ≠
      _canon_name (asciiFold "Alexievich") ∧
    _looks_like_same_book c4net "Tšernobõli palve" "Aleksijevitš, Svetlana"
      "http://h/record=b5555555" = false :=
  ⟨by decide, by decide⟩

/-- C4 amended: `_canon_name` does collapse `-jev-`/`-jov-` glide and
`-ski`/`-sky` suffix transliteration variants to one key, and unrelated
surnames keep distinct keys; but the `-vits` vs `-vich` endings of the
spec's example survive to the metaphone step as `TS` vs `X`, so that pair
folds to different keys. -/
theorem C4_name_folding_variants :
    _canon_name "aleksijevits" = _canon_name "aleksievits" ∧
    _canon_name "dostojevski" = _canon_name "dostoyevsky" ∧
    _canon_name "dostojevski" ≠ _canon_name "tolstoi" ∧
    _canon_name "aleksijevits" ≠ _canon_name "alexievich" :=
  ⟨by decide, by decide, by decide, by decide⟩

/-! ## C3: canonicalization idempotence

The counterexample: `_FRSCRUB`'s slice-counter alternative is anchored at
`$` and `re.sub` makes a single left-to-right pass, so of several stacked
slice-counter groups only the last is stripped per application — a second
application strips more. -/

/-- C3 counterexample: a hit-list URL whose tail carries two slice-counter
groups canonicalizes to a URL that still ends in a slice-counter group, so
`_canon` is not idempotent there. -/
theorem C3_counterexample :
    hasSubStr "/frameset" "http://h/frameset?x&1,1,&2,2," = true ∧
    _canon (_canon "http://h/frameset?x&1,1,&2,2,") ≠
      _canon "http://h/frameset?x&1,1,&2,2," :=
  ⟨by decide, by decide⟩

/-- A lowercase, purely alphabetic, nonempty scheme (what `urlsplit` needs
to recognise and keep the scheme unchanged). -/
def lowSchemeOk (sch : List Char) : Bool :=
  sch ≠ [] && isAsciiAlphaCh (sch.headD ' ') &&
    sch.all fun c => schemeChar c && lowerChar c = c && c ≠ ':'

/-- Splitting the tail at its first `?` and re-joining with
`f"{path}?{query}" if query else path` gives the tail back, unless the
first `?` is the last character. -/
def tailJoinOk (rest : List Char) : Bool :=
  match splitOnce '?' rest with
  | none => true
  | some (_, q) => q ≠ []

/-- The hit-list test of `_canon` on a `path?query` tail: `"/frameset"`
occurs in the path part or in the query part. -/
def framesetCond (rest : List Char) : Bool :=
  hasSub "/frameset".data (splitFirst '?' rest).1 ||
    hasSub "/frameset".data (splitFirst '?' rest).2

theorem splitOnce_append (c : Char) (a b : List Char)
    (h : a.all (· ≠ c) = true) : splitOnce c (a ++ c :: b) = some (a, b) := by
  induction a with
  | nil => simp [splitOnce]
  | cons x xs ih =>
    simp only [List.all_cons, Bool.and_eq_true, decide_eq_true_eq] at h
    simp only [List.cons_append, splitOnce]
    rw [if_neg h.1]
    simp only [List.append_eq]
    rw [ih h.2]

theorem splitOnce_none (c : Char) (l : List Char)
    (h : l.all (· ≠ c) = true) : splitOnce c l = none := by
  induction l with
  | nil => rfl
  | cons x xs ih =>
    simp only [List.all_cons, Bool.and_eq_true, decide_eq_true_eq] at h
    simp only [splitOnce]
    rw [if_neg h.1, ih h.2]

theorem splitOnce_eq (c : Char) :
    ∀ (l a b : List Char), splitOnce c l = some (a, b) → l = a ++ c :: b := by
  intro l
  induction l with
  | nil => intro a b h; simp [splitOnce] at h
  | cons x xs ih =>
    intro a b h
    simp only [splitOnce] at h
    by_cases hx : x = c
    · rw [if_pos hx] at h
      cases h
      simp [hx]
    · rw [if_neg hx] at h
      cases hs : splitOnce c xs with
      | none => rw [hs] at h; cases h
      | some ab =>
        rw [hs] at h
        cases h
        simp [ih ab.1 ab.2 (by rw [hs])]

theorem lowerL_id (l : List Char)
    (h : l.all (fun c => lowerChar c = c) = true) : lowerL l = l := by
  induction l with
  | nil => rfl
  | cons x xs ih =>
    simp only [List.all_cons, Bool.and_eq_true, decide_eq_true_eq] at h
    simp only [lowerL, List.map_cons] at ih ⊢
    rw [h.1, ih h.2]

theorem unquoteL_id : ∀ (l : List Char), l.all (· ≠ '%') = true → unquoteL l = l
  | [] => fun _ => rfl
  | [_] => fun _ => rfl
  | [c, d] => fun h => by
    simp only [List.all_cons, List.all_nil, Bool.and_eq_true,
      decide_eq_true_eq] at h
    have hd := unquoteL_id [d] (by simp [h.2.1])
    simp [unquoteL, h.1, hd]
  | c :: d :: e :: rest => fun h => by
    simp only [List.all_cons, Bool.and_eq_true, decide_eq_true_eq] at h
    have hall : (d :: e :: rest).all (· ≠ '%') = true := by
      simp only [List.all_cons, Bool.and_eq_true, decide_eq_true_eq]
      exact ⟨h.2.1, h.2.2⟩
    have ht := unquoteL_id (d :: e :: rest) hall
    simp [unquoteL, h.1, ht]

theorem span_append (p : Char → Bool) (a : List Char) (x : Char)
    (xs : List Char) (ha : a.all p = true) (hx : p x = false) :
    (a ++ x :: xs).takeWhile p = a ∧ (a ++ x :: xs).dropWhile p = x :: xs := by
  induction a with
  | nil => simp [List.takeWhile_cons, List.dropWhile_cons, hx]
  | cons c cs ih =>
    simp only [List.all_cons, Bool.and_eq_true] at ha
    have := ih ha.2
    simp [List.takeWhile_cons, List.dropWhile_cons, ha.1, this.1, this.2]

theorem splitFirst_all (pr : Char → Bool) (c : Char) (l : List Char)
    (h : l.all pr = true) :
    (splitFirst c l).1.all pr = true ∧ (splitFirst c l).2.all pr = true := by
  unfold splitFirst
  cases hs : splitOnce c l with
  | none => simpa using h
  | some ab =>
    have := splitOnce_eq c l ab.1 ab.2 (by rw [hs])
    rw [this] at h
    simp only [List.all_append, List.all_cons, Bool.and_eq_true] at h
    exact ⟨h.1, h.2.2⟩

theorem urlsplit_concat (sch nl rest : List Char)
    (hsch : lowSchemeOk sch = true)
    (hnl : nl.all netlocSpan = true)
    (hslash : startsW ['/'] rest = true)
    (hhash : rest.all (· ≠ '#') = true) :
    urlsplitL (sch ++ ':' :: '/' :: '/' :: (nl ++ rest)) =
      ⟨sch, nl, (splitFirst '?' rest).1, (splitFirst '?' rest).2, []⟩ := by
  obtain ⟨xs, rfl⟩ : ∃ xs, rest = '/' :: xs := by
    cases rest with
    | nil => simp [startsW] at hslash
    | cons r rs =>
      simp only [startsW, Bool.and_eq_true, decide_eq_true_eq] at hslash
      exact ⟨rs, by rw [hslash.1]⟩
  simp only [lowSchemeOk, Bool.and_eq_true, ne_eq, decide_not] at hsch
  have hno : sch.all (· ≠ ':') = true := by
    rw [List.all_eq_true] at hsch ⊢
    intro x hxmem
    have := hsch.2 x hxmem
    simp only [Bool.and_eq_true, decide_eq_true_eq] at this
    simp [this.2]
  have hlow : sch.all (fun c => lowerChar c = c) = true := by
    rw [List.all_eq_true] at hsch ⊢
    intro x hxmem
    have := hsch.2 x hxmem
    simp only [Bool.and_eq_true, decide_eq_true_eq] at this
    simp [this.1.2]
  have hschch : sch.all schemeChar = true := by
    rw [List.all_eq_true] at hsch ⊢
    intro x hxmem
    have := hsch.2 x hxmem
    simp only [Bool.and_eq_true, decide_eq_true_eq] at this
    simp [this.1.1]
  have hne : sch ≠ [] := by
    rcases hsch.1 with ⟨h1, _⟩
    simpa using h1
  have halpha : isAsciiAlphaCh (sch.headD ' ') = true := hsch.1.2
  have hcolon := splitOnce_append ':' sch ('/' :: '/' :: (nl ++ '/' :: xs)) hno
  have hspan := span_append netlocSpan nl '/' xs hnl (by rfl)
  have hfrag : splitOnce '#' ('/' :: xs) = none :=
    splitOnce_none '#' ('/' :: xs) hhash
  simp only [urlsplitL, hcolon]
  rw [if_pos ⟨hne, halpha, hschch⟩]
  simp only [List.drop_succ_cons, List.drop_zero, startsW]
  rw [lowerL_id sch hlow]
  simp [splitFirst, hspan.1, hspan.2, hfrag]

theorem urlunsplit_concat (sch nl T : List Char) (hs : sch ≠ [])
    (hn : nl ≠ []) (hT : startsW ['/', '/'] T = false) :
    urlunsplitL sch nl T [] [] = sch ++ ':' :: '/' :: '/' :: (nl ++ T) := by
  simp [urlunsplitL, hs, hn, hT]

/-- One symbolic evaluation of `_canon` on a well-formed hit-list URL:
the query noise of the `path?query` tail is scrubbed and the URL is
re-assembled around the same scheme and netloc. -/
theorem canon_step (sch nl rest : List Char)
    (hsch : lowSchemeOk sch = true)
    (hnl : nl.all netlocSpan = true) (hnl0 : nl ≠ [])
    (hslash : startsW ['/'] rest = true)
    (hpct : rest.all (· ≠ '%') = true)
    (hhash : rest.all (· ≠ '#') = true)
    (hjoin : tailJoinOk rest = true)
    (hfr : framesetCond rest = true)
    (hTnn : startsW ['/', '/'] (frscrub rest) = false) :
    _canon (String.mk (sch ++ ':' :: '/' :: '/' :: (nl ++ rest))) =
      String.mk (sch ++ ':' :: '/' :: '/' :: (nl ++ frscrub rest)) := by
  have hparts := splitFirst_all (· ≠ '%') '?' rest hpct
  have hs : sch ≠ [] := by
    simp only [lowSchemeOk, Bool.and_eq_true, ne_eq, decide_not] at hsch
    rcases hsch.1 with ⟨h1, _⟩
    simpa using h1
  have htail :
      (if (splitFirst '?' rest).2 ≠ [] then
        (splitFirst '?' rest).1 ++ '?' :: (splitFirst '?' rest).2
      else (splitFirst '?' rest).1) = rest := by
    unfold tailJoinOk at hjoin
    cases hsp : splitOnce '?' rest with
    | none => simp [splitFirst, hsp]
    | some ab =>
      rw [hsp] at hjoin
      simp only [ne_eq, decide_not, Bool.not_eq_true', decide_eq_false_iff_not] at hjoin
      have hab := splitOnce_eq '?' rest ab.1 ab.2 (by rw [hsp])
      simp [splitFirst, hsp, hjoin, hab.symm]
  unfold _canon urlsplitStr
  rw [show (String.mk (sch ++ ':' :: '/' :: '/' :: (nl ++ rest))).data =
    sch ++ ':' :: '/' :: '/' :: (nl ++ rest) from rfl]
  rw [urlsplit_concat sch nl rest hsch hnl hslash hhash]
  simp only [unquoteL_id _ hparts.1, unquoteL_id _ hparts.2]
  rw [if_pos (by simpa [framesetCond] using hfr)]
  rw [htail]
  rw [urlunsplit_concat sch nl (frscrub rest) hs hnl0 hTnn]

/-- C3 amended: `_canon` is idempotent on well-formed hit-list URLs whose
scrubbed tail is itself a `_FRSCRUB` fixed point (in particular, tails with
at most one trailing slice-counter group and no save-parameter preceding
one); with several stacked slice-counter groups one application strips only
the last group, so a second application strips more (see the
counterexample). -/
theorem C3_canon_idempotent_wellformed (sch nl rest : List Char)
    (hsch : lowSchemeOk sch = true)
    (hnl : nl.all netlocSpan = true) (hnl0 : nl ≠ [])
    (hslash : startsW ['/'] rest = true)
    (hpct : rest.all (· ≠ '%') = true)
    (hhash : rest.all (· ≠ '#') = true)
    (hjoin : tailJoinOk rest = true)
    (hfr : framesetCond rest = true)
    (hTslash : startsW ['/'] (frscrub rest) = true)
    (hTnn : startsW ['/', '/'] (frscrub rest) = false)
    (hTpct : (frscrub rest).all (· ≠ '%') = true)
    (hThash : (frscrub rest).all (· ≠ '#') = true)
    (hTjoin : tailJoinOk (frscrub rest) = true)
    (hTfr : framesetCond (frscrub rest) = true)
    (hfix : frscrub (frscrub rest) = frscrub rest) :
    _canon (_canon (String.mk (sch ++ ':' :: '/' :: '/' :: (nl ++ rest)))) =
      _canon (String.mk (sch ++ ':' :: '/' :: '/' :: (nl ++ rest))) := by
  rw [canon_step sch nl rest hsch hnl hnl0 hslash hpct hhash hjoin hfr hTnn]
  rw [canon_step sch nl (frscrub rest) hsch hnl hnl0 hTslash hTpct hThash
    hTjoin hTfr (by rw [hfix]; exact hTnn)]
  rw [hfix]

theorem C3_canon_idempotent_wellformed_witness :
    _canon (_canon (String.mk ("https".data ++ ':' :: '/' :: '/' ::
        ("www.ester.ee".data ++ "/search~S8*est/X?/frameset&FF=tubik&1,1,".data)))) =
      _canon (String.mk ("https".data ++ ':' :: '/' :: '/' ::
        ("www.ester.ee".data ++ "/search~S8*est/X?/frameset&FF=tubik&1,1,".data))) :=
  C3_canon_idempotent_wellformed "https".data "www.ester.ee".data
    "/search~S8*est/X?/frameset&FF=tubik&1,1,".data
    (by decide) (by decide) (by decide) (by decide) (by decide) (by decide)
    (by decide) (by decide) (by decide) (by decide) (by decide) (by decide)
    (by decide) (by decide) (by decide)

/-! ## C1: crawl termination -/

def c1net : Net :=
  [("http://h/frameset?s",
    { html := "", bibItemsRow := false,
      recordHrefs := ["http://h/record=b1111111", "http://h/record=b2222222"],
      framesetHrefs := [],
      frameSrcs :=
        ["http://h/p0", "http://h/p1", "http://h/p2", "http://h/p3",
         "http://h/p4", "http://h/p5", "http://h/p6", "http://h/p7",
         "http://h/p8", "http://h/p9", "http://h/pa", "http://h/pb",
         "http://h/pc", "http://h/pd", "http://h/pe"],
      titleText := "", authorText := "" })]

/-- C1 counterexample: on a start page with two physical record anchors and
fifteen frame leads, the crawl terminates but returns a two-element result
(not empty or single-element) and visits sixteen distinct pages — three
more than the `_MAX_VISITED` cap of 13, because the cap only gates
enqueueing, not the draining of pages already queued. -/
theorem C1_counterexample :
    (collect_record_links c1net "http://h/frameset?s").length = 2 ∧
    ((crawlF c1net none (crawlBound c1net "http://h/frameset?s")
        ⟨["http://h/frameset?s"], [], []⟩).map fun r => r.2.length) = some 16 ∧
    _MAX_VISITED = 13 :=
  ⟨by decide, by decide, rfl⟩

theorem pushLeads_inr_mem (g : Net) (seen out : List String) (base : String) :
    ∀ (leads acc items : List String),
      pushLeads g seen out base acc leads = .inr items →
      ∀ x ∈ items, x ∈ acc ∨ ∃ l ∈ leads, x = urljoin base l := by
  intro leads
  induction leads with
  | nil =>
    intro acc items h x hx
    cases h
    exact Or.inl hx
  | cons l rest ih =>
    intro acc items h x hx
    simp only [pushLeads] at h
    split at h
    · rcases ih acc items h x hx with h1 | ⟨l', hl', he⟩
      · exact Or.inl h1
      · exact Or.inr ⟨l', List.mem_cons_of_mem _ hl', he⟩
    · split at h
      · rcases ih acc items h x hx with h1 | ⟨l', hl', he⟩
        · exact Or.inl h1
        · exact Or.inr ⟨l', List.mem_cons_of_mem _ hl', he⟩
      · split at h
        · rcases ih acc items h x hx with h1 | ⟨l', hl', he⟩
          · exact Or.inl h1
          · exact Or.inr ⟨l', List.mem_cons_of_mem _ hl', he⟩
        · split at h
          · cases h
          · rcases ih _ items h x hx with h1 | ⟨l', hl', he⟩
            · rcases List.mem_append.mp h1 with h2 | h2
              · exact Or.inl h2
              · simp only [List.mem_singleton] at h2
                exact Or.inr ⟨l, List.mem_cons_self _ _, h2⟩
            · exact Or.inr ⟨l', List.mem_cons_of_mem _ hl', he⟩

theorem pushLeads_inr_len (g : Net) (seen out : List String) (base : String) :
    ∀ (leads acc items : List String),
      pushLeads g seen out base acc leads = .inr items →
      items.length ≤ acc.length + leads.length := by
  intro leads
  induction leads with
  | nil =>
    intro acc items h
    cases h
    simp
  | cons l rest ih =>
    intro acc items h
    simp only [pushLeads] at h
    split at h
    · have := ih acc items h; simp at this ⊢; omega
    · split at h
      · have := ih acc items h; simp at this ⊢; omega
      · split at h
        · have := ih acc items h; simp at this ⊢; omega
        · split at h
          · cases h
          · have := ih _ items h; simp at this ⊢; omega

theorem mem_le_maxLeads (g : Net) (e : String × Page) (he : e ∈ g) :
    e.2.framesetHrefs.length + e.2.frameSrcs.length ≤ maxLeads g := by
  induction g with
  | nil => cases he
  | cons f fs ih =>
    simp only [maxLeads, List.foldr_cons]
    rcases List.mem_cons.mp he with rfl | hmem
    · exact le_max_left _ _
    · exact le_trans (ih hmem) (le_max_right _ _)

theorem fetchPage_mem (g : Net) (u : String) :
    fetchPage g u = emptyPage ∨ (u, fetchPage g u) ∈ g := by
  unfold fetchPage
  cases h : g.find? (fun e => e.1 = u) with
  | none => exact Or.inl rfl
  | some e =>
    right
    have hmem := List.mem_of_find?_eq_some h
    have hpred := List.find?_some h
    simp only [decide_eq_true_eq] at hpred
    have : (u, e.2) = e := by
      cases e with
      | mk e1 e2 => simp only at hpred; rw [hpred]
    rw [this]
    exact hmem

theorem unseenCnt_decrease (g : Net) (start : String) (seen : List String)
    (url : String) (hmem : url ∈ candTargets g start)
    (hfresh : _canon url ∉ seen) :
    unseenCnt g start (_canon url :: seen) + 1 ≤ unseenCnt g start seen := by
  unfold unseenCnt
  have hkeyA : _canon url ∈ ((candTargets g start).map _canon).toFinset := by
    rw [List.mem_toFinset, List.mem_map]
    exact ⟨url, hmem, rfl⟩
  have hkeyS : _canon url ∉ seen.toFinset := by
    rw [List.mem_toFinset]
    exact hfresh
  have hsub : ((candTargets g start).map _canon).toFinset \
        (_canon url :: seen).toFinset ⊂
      ((candTargets g start).map _canon).toFinset \ seen.toFinset := by
    rw [List.toFinset_cons, Finset.ssubset_def]
    constructor
    · exact Finset.sdiff_subset_sdiff (le_refl _) (Finset.subset_insert _ _)
    · intro hcontra
      have h1 : _canon url ∈
          ((candTargets g start).map _canon).toFinset \ seen.toFinset :=
        Finset.mem_sdiff.mpr ⟨hkeyA, hkeyS⟩
      have h2 := hcontra h1
      rw [Finset.mem_sdiff] at h2
      exact h2.2 (Finset.mem_insert_self _ _)
  have := Finset.card_lt_card hsub
  omega

theorem crawl_terminates_aux (g : Net) (limit : Option Nat) (start : String) :
    ∀ (fuel : Nat) (st : CrawlSt),
      (∀ u ∈ st.q, u ∈ candTargets g start) →
      crawlMeasure g start st < fuel →
      (crawlF g limit fuel st).isSome = true := by
  intro fuel
  induction fuel with
  | zero => intro st _ h; omega
  | succ n ih =>
    rintro ⟨q, seen, out⟩ hinv hm
    match q with
    | [] => simp [crawlF, crawlBody]
    | url :: q' =>
      simp only [crawlF, crawlBody]
      by_cases hseen : _canon url ∈ seen
      · rw [if_pos hseen]
        apply ih ⟨q', seen, out⟩
        · intro u hu
          exact hinv u (List.mem_cons_of_mem _ hu)
        · unfold crawlMeasure at hm ⊢
          simp only [List.length_cons] at hm ⊢
          omega
      · rw [if_neg hseen]
        cases hh : harvest g url limit out (fetchPage g url).recordHrefs with
        | inl fin => simp [crawlHarv]
        | inr out' =>
          simp only [crawlHarv]
          cases hp : pushLeads g (_canon url :: seen) out' url []
              ((fetchPage g url).framesetHrefs ++ (fetchPage g url).frameSrcs) with
          | inl ab => simp [crawlPush]
          | inr items =>
            simp only [crawlPush]
            have hurl : url ∈ candTargets g start :=
              hinv url (List.mem_cons_self _ _)
            apply ih ⟨q' ++ items, _canon url :: seen, out'⟩
            · intro u hu
              rcases List.mem_append.mp hu with h1 | h2
              · exact hinv u (List.mem_cons_of_mem _ h1)
              · rcases pushLeads_inr_mem g (_canon url :: seen) out' url
                  _ [] items hp u h2 with h3 | ⟨l, hl, he⟩
                · cases h3
                · rcases fetchPage_mem g url with hemp | hmem
                  · rw [hemp] at hl
                    simp [emptyPage] at hl
                  · unfold candTargets
                    apply List.mem_cons_of_mem
                    rw [List.mem_flatMap]
                    refine ⟨(url, fetchPage g url), hmem, ?_⟩
                    rw [List.mem_map]
                    exact ⟨l, hl, he.symm⟩
            · have hdec := unseenCnt_decrease g start seen url hurl hseen
              have hilen : items.length ≤ maxLeads g := by
                have h1 := pushLeads_inr_len g (_canon url :: seen) out' url
                  _ [] items hp
                have h2 : ((fetchPage g url).framesetHrefs ++
                    (fetchPage g url).frameSrcs).length ≤ maxLeads g := by
                  rcases fetchPage_mem g url with hemp | hmem
                  · rw [hemp]; simp [emptyPage]
                  · simpa using mem_le_maxLeads g _ hmem
                simp only [List.length_nil] at h1
                omega
              unfold crawlMeasure at hm ⊢
              simp only [List.length_cons, List.length_append] at hm ⊢
              have hmul : unseenCnt g start (_canon url :: seen) *
                    (maxLeads g + 1) + (maxLeads g + 1) ≤
                  unseenCnt g start seen * (maxLeads g + 1) := by
                have h3 : (unseenCnt g start (_canon url :: seen) + 1) *
                    (maxLeads g + 1) ≤
                    unseenCnt g start seen * (maxLeads g + 1) :=
                  Nat.mul_le_mul_right _ hdec
                calc unseenCnt g start (_canon url :: seen) * (maxLeads g + 1) +
                      (maxLeads g + 1)
                    = (unseenCnt g start (_canon url :: seen) + 1) *
                      (maxLeads g + 1) := by ring
                  _ ≤ _ := h3
              generalize unseenCnt g start (_canon url :: seen) *
                (maxLeads g + 1) = bk at hmul ⊢
              generalize unseenCnt g start seen * (maxLeads g + 1) = ak
                at hmul hm
              omega

theorem crawlBody_mono (g : Net) (limit : Option Nat)
    (r1 r2 : CrawlSt → Option (List String × List String))
    (hmono : ∀ st r, r1 st = some r → r2 st = some r) :
    ∀ (st : CrawlSt) (r : List String × List String),
      crawlBody g limit r1 st = some r → crawlBody g limit r2 st = some r := by
  rintro ⟨q, seen, out⟩ r h
  match q with
  | [] => exact h
  | url :: q' =>
    simp only [crawlBody] at h ⊢
    by_cases hseen : _canon url ∈ seen
    · rw [if_pos hseen] at h ⊢
      exact hmono _ r h
    · rw [if_neg hseen] at h ⊢
      revert h
      cases hh : harvest g url limit out (fetchPage g url).recordHrefs with
      | inl fin => intro h; simp only [crawlHarv] at h ⊢; exact h
      | inr out' =>
        intro h
        simp only [crawlHarv] at h ⊢
        revert h
        cases hp : pushLeads g (_canon url :: seen) out' url []
            ((fetchPage g url).framesetHrefs ++ (fetchPage g url).frameSrcs) with
        | inl ab => intro h; simp only [crawlPush] at h ⊢; exact h
        | inr items =>
          intro h
          simp only [crawlPush] at h ⊢
          exact hmono _ r h

theorem crawlF_mono (g : Net) (limit : Option Nat) :
    ∀ (fuel : Nat) (st : CrawlSt) (r : List String × List String),
      crawlF g limit fuel st = some r →
      crawlF g limit (fuel + 1) st = some r := by
  intro fuel
  induction fuel with
  | zero => intro st r h; cases h
  | succ n ih =>
    intro st r h
    exact crawlBody_mono g limit (crawlF g limit n) (crawlF g limit (n + 1))
      (fun st' r' h' => ih st' r' h') st r h

/-- C1 amended: for every page graph — cyclic or not — and every start URL
and record limit, the crawl loop of `collect_record_links` completes within
the computable fuel bound `crawlBound` (it never loops indefinitely), and
giving it any further fuel does not change the outcome.  The result may
hold several accepted records and the visited set may exceed
`_MAX_VISITED`; see the counterexample. -/
theorem C1_crawl_terminates (g : Net) (limit : Option Nat) (start : String) :
    (crawlF g limit (crawlBound g start) ⟨[start], [], []⟩).isSome = true ∧
    ∀ extra, crawlF g limit (crawlBound g start + extra) ⟨[start], [], []⟩ =
      crawlF g limit (crawlBound g start) ⟨[start], [], []⟩ := by
  have h1 : (crawlF g limit (crawlBound g start) ⟨[start], [], []⟩).isSome
      = true := by
    apply crawl_terminates_aux g limit start
    · intro u hu
      simp only [List.mem_singleton] at hu
      rw [hu]
      exact List.mem_cons_self _ _
    · unfold crawlBound
      omega
  refine ⟨h1, ?_⟩
  intro extra
  induction extra with
  | zero => rfl
  | succ k ihe =>
    have h4 : (crawlF g limit (crawlBound g start + k)
        ⟨[start], [], []⟩).isSome = true := by rw [ihe]; exact h1
    obtain ⟨r, hr⟩ := Option.isSome_iff_exists.mp h4
    have h2 : crawlF g limit (crawlBound g start + k + 1)
        ⟨[start], [], []⟩ = some r := crawlF_mono g limit _ _ r hr
    have h3 : crawlF g limit (crawlBound g start)
        ⟨[start], [], []⟩ = some r := ihe.symm.trans hr
    exact h2.trans h3.symm

end Goodreader
